import Mathlib

/-!
# pawtroli-be: log rotation and retention

A shallow embedding of `internal/services/log_rotation.go` and of the rotation
part of `internal/logger/logger.go`, with the properties of the retention sweep,
the listing query, the size formatter, the day rotation, the rounds of the
background loop and the scheduler.

Conventions of the embedding
* Go `int`, `int64` and `time.Duration` values are `Int`; instants (`time.Time`)
  are `Int` nanoseconds.
* File names are `String`s; `strings.HasPrefix` / `strings.HasSuffix` compare the
  character lists.
* A Go `error` result is `Except String _`; a run-time panic is an explicit
  constructor or `none`.
* `sort.Slice` is a library routine: the sweep and the listing are parameterised
  by a `SliceSort`, any routine that meets the contract of `sort.Slice`
  (`SliceSort.Meets`). `insertionSorter` is the routine the Go library runs on
  slices of at most 12 elements, and `pdqSorter` is `sort.Slice` itself.
-/

namespace Pawtroli

/-! ## Library routines: formatting -/

/-- The verb `%d` of `fmt.Sprintf` on an integer: its decimal rendering. -/
def fmtInt (n : Int) : String := toString n

/-- The least shift `s`, counted up from the start value, at which `n / 2 ^ s`
fits in 53 bits; the first argument after `n` bounds the search. -/
def roundShiftAux (n : Nat) : Nat → Nat → Nat
  | 0, s => s
  | fuel + 1, s => if n / 2 ^ s < 2 ^ 53 then s else roundShiftAux n fuel (s + 1)

/-- The conversion `float64(n)` of a non-negative integer: `n` rounded to 53
significant bits, ties to even. The result is again an integer. -/
def float64OfNat (n : Nat) : Nat :=
  let sh := roundShiftAux n n 0
  if sh = 0 then n
  else
    let q := n / 2 ^ sh
    let r := n % 2 ^ sh
    let half := 2 ^ (sh - 1)
    (if half < r ∨ (r = half ∧ q % 2 = 1) then q + 1 else q) * 2 ^ sh

/-- The verb `%.1f` of `fmt.Sprintf` on the non-negative value `num / den`
(`0 < den`): the value rounded to one decimal place, an exact tie going to the
even digit, printed as integer part, point, one digit. -/
def fmtFloat1 (num den : Nat) : String :=
  let t := 10 * num
  let q := t / den
  let r := t % den
  let tenths := if den < 2 * r ∨ (2 * r = den ∧ q % 2 = 1) then q + 1 else q
  toString (tenths / 10) ++ "." ++ toString (tenths % 10)

/-! ## `formatFileSize` -/

/-- The scaling loop of `formatFileSize`:
`for n := size / unit; n >= unit; n /= unit { div *= unit; exp++ }`,
started at `n`, `div`, `exp`; it returns the final `div` and `exp`. -/
def formatFileSizeLoop (n div : Int) (exp : Nat) : Int × Nat :=
  if 1024 ≤ n then formatFileSizeLoop (n / 1024) (div * 1024) (exp + 1)
  else (div, exp)
termination_by n.toNat
decreasing_by omega

/-- The function `formatFileSize(size int64) string`. The result is `none` when
the index expression `"KMGTPE"[exp]` is out of range (a run-time panic).
`float64(size) / float64(div)` is the exact quotient of `float64OfNat size` by
`div`, a power of two. -/
def formatFileSize (size : Int) : Option String :=
  if size < 1024 then some (fmtInt size ++ " B")
  else
    let r := formatFileSizeLoop (size / 1024) 1024 0
    match "KMGTPE".data.get? r.2 with
    | none => none
    | some c =>
      some (fmtFloat1 (float64OfNat size.toNat) r.1.toNat ++ " " ++ String.singleton c ++ "B")

/-! ## Library routines: sorting, time, strings -/

/-- A routine with the signature of `sort.Slice`: it takes the `less` function and
the slice and returns the slice after the sort. -/
abbrev SliceSort := (α : Type) → (α → α → Bool) → List α → List α

/-- The contract of `sort.Slice`: the result is a rearrangement of the slice, and
when `less` is a strict weak ordering no element is less than one before it.
Nothing is said about the order of elements that compare equal (the sort need
not be stable). -/
def SliceSort.Meets (srt : SliceSort) : Prop :=
  ∀ (α : Type) (less : α → α → Bool) (l : List α),
    (srt α less l).Perm l ∧
    ((∀ a b, less a b = true → less b a = false) →
      (∀ a b c, less a c = true → less a b = true ∨ less b c = true) →
      (srt α less l).Pairwise (fun a b => less b a = false))

/-- The inner loop of the library's `insertionSort_func`,
`for j := i; j > a && less(j, j-1); j-- { swap(j, j-1) }`: the element `x` moves
left past every element it is less than. The sorted part before `x` is held in
reverse (nearest element first), and so is the result. -/
def insertFromRight {α : Type} (less : α → α → Bool) (x : α) : List α → List α
  | [] => [x]
  | y :: ys => if less x y then y :: insertFromRight less x ys else x :: y :: ys

/-- The library's `insertionSort_func`, the routine `sort.Slice` runs on a slice
of at most 12 elements: the elements are inserted one by one, left to right. -/
def insertionSorter : SliceSort := fun _ less l =>
  (l.foldl (fun acc x => insertFromRight less x acc) []).reverse

/-- The method `t.Sub(u)` of `time.Time` on instants without monotonic reading:
the difference in nanoseconds, held to the range of `time.Duration`. -/
def timeSub (t u : Int) : Int :=
  if t - u > 2 ^ 63 - 1 then 2 ^ 63 - 1
  else if t - u < -(2 ^ 63) then -(2 ^ 63)
  else t - u

/-- The function `strings.HasPrefix(s, p)`. -/
def hasPrefix (s p : String) : Bool := p.data.isPrefixOf s.data

/-- The function `strings.HasSuffix(s, p)`. -/
def hasSuffix (s p : String) : Bool := p.data.isSuffixOf s.data

/-! ## The log directory -/

/-- The value `os.FileInfo` of a file: what the service reads of it. -/
structure FileInfo where
  name : String
  size : Int
  modTime : Int
deriving DecidableEq, Repr

/-- An entry of the log directory as `os.ReadDir` returns it (`os.DirEntry`),
with the metadata of the file behind it; `infoErr` says that `entry.Info()`
returns an error (the file went away after the directory was read). -/
structure DirEntry where
  name : String
  isDir : Bool
  size : Int
  modTime : Int
  infoErr : Bool
deriving DecidableEq, Repr

/-- The method `entry.Info()`. -/
def DirEntry.Info (e : DirEntry) : Except String FileInfo :=
  if e.infoErr then .error "lstat failed" else .ok ⟨e.name, e.size, e.modTime⟩

/-- The state of the directory `lrs.logDir`: its entries, and the error of
`os.ReadDir` when the directory cannot be read. -/
structure LogDir where
  readErr : Option String
  entries : List DirEntry
deriving DecidableEq, Repr

/-- The function `os.ReadDir(lrs.logDir)`. The library returns the entries sorted
by file name (`sortedByName`); the entries are returned here as the state holds
them, so what is proved for every state holds for the sorted ones. -/
def osReadDir (d : LogDir) : Except String (List DirEntry) :=
  match d.readErr with
  | some e => .error e
  | none => .ok d.entries

/-- The function `os.Remove` on the entry `name` of the log directory. It fails
when the filesystem refuses (`rmFails name`) or when there is no such entry;
otherwise the entry is gone. It returns whether it succeeded, and the entries. -/
def osRemove (rmFails : String → Bool) (entries : List DirEntry) (name : String) :
    Bool × List DirEntry :=
  if entries.any (fun e => e.name == name) && !rmFails name then
    (true, entries.filter (fun e => !(e.name == name)))
  else (false, entries)

/-! ## The rotation service -/

/-- The type `LogRotationService`: the fields the sweep and the listing read. -/
structure LogRotationService where
  logDir : String
  maxFiles : Int
  maxAge : Int
deriving Repr

/-- The function `NewLogRotationService`. -/
def NewLogRotationService (logDir : String) (maxFiles : Int) (maxAge : Int) :
    LogRotationService :=
  { logDir := logDir, maxFiles := maxFiles, maxAge := maxAge }

/-- The condition of the `if` in the loop of `getLogFiles`. -/
def isLogFileEntry (entry : DirEntry) : Bool :=
  !entry.isDir && hasPrefix entry.name "pawtroli_" && hasSuffix entry.name ".log"

/-- The body of the loop of `getLogFiles` for one entry: what it appends. -/
def logFileOf (entry : DirEntry) : Option FileInfo :=
  if isLogFileEntry entry then
    match entry.Info with
    | .ok info => some info
    | .error _ => none
  else none

/-- The method `getLogFiles`. -/
def getLogFiles (d : LogDir) : Except String (List FileInfo) :=
  match osReadDir d with
  | .error err => .error err
  | .ok entries => .ok (entries.filterMap logFileOf)

/-- The first loop of `cleanupOldLogs` (age-based cleanup): the names it appends
to `filesToDelete`. -/
def ageMarked (lrs : LogRotationService) (now : Int) (files : List FileInfo) : List String :=
  (files.filter (fun file => decide (timeSub now file.modTime > lrs.maxAge))).map (·.name)

/-- The loop `for i := 0; i < excessCount; i++ { ... files[i].Name() ... }` of
`cleanupOldLogs`, from the index `i` with `todo` rounds to go: the names it
appends, or `none` when `files[i]` is out of range (a run-time panic). -/
def markExcess (files : List FileInfo) : Nat → Nat → Option (List String)
  | _, 0 => some []
  | i, todo + 1 =>
    match files.get? i with
    | none => none
    | some file => (markExcess files (i + 1) todo).map (fun names => file.name :: names)

/-- The second part of `cleanupOldLogs` (count-based cleanup): the names it
appends to `filesToDelete`, or `none` on a panic. Go `int` arithmetic is exact
here as long as `len(files) - maxFiles` stays in range, which it does for every
`maxFiles ≥ 0`. -/
def countMarked (srt : SliceSort) (lrs : LogRotationService) (files : List FileInfo) :
    Option (List String) :=
  if (files.length : Int) > lrs.maxFiles then
    let sorted := srt FileInfo (fun a b => decide (a.modTime < b.modTime)) files
    let excessCount := (files.length : Int) - lrs.maxFiles
    markExcess sorted 0 excessCount.toNat
  else some []

/-- The slice `filesToDelete` of `cleanupOldLogs` when the marking is done. -/
def filesToDelete (srt : SliceSort) (lrs : LogRotationService) (now : Int)
    (files : List FileInfo) : Option (List String) :=
  (countMarked srt lrs files).map (fun excess => ageMarked lrs now files ++ excess)

/-- The last loop of `cleanupOldLogs` (delete marked files): every name is passed
to `os.Remove`, whatever the earlier removals returned. It returns the outcome of
each removal, in order, and the entries left. -/
def removeMarked (rmFails : String → Bool) :
    List DirEntry → List String → List (String × Bool) × List DirEntry
  | entries, [] => ([], entries)
  | entries, fileName :: rest =>
    let r := osRemove rmFails entries fileName
    let rs := removeMarked rmFails r.2 rest
    ((fileName, r.1) :: rs.1, rs.2)

/-- How a run of `cleanupOldLogs` ends. -/
inductive SweepOutcome where
  | readFailed (err : String)
  | panicked
  | swept (attempts : List (String × Bool))
deriving DecidableEq, Repr

/-- The method `cleanupOldLogs`, run at the instant `now` on the directory `d`:
how it ends, and the directory after it. -/
def cleanupOldLogs (srt : SliceSort) (lrs : LogRotationService) (now : Int)
    (rmFails : String → Bool) (d : LogDir) : SweepOutcome × LogDir :=
  match getLogFiles d with
  | .error err => (.readFailed err, d)
  | .ok files =>
    match filesToDelete srt lrs now files with
    | none => (.panicked, d)
    | some marked =>
      let r := removeMarked rmFails d.entries marked
      (.swept r.1, { d with entries := r.2 })

/-- An element of the result of `GetLogFilesList`: the map with the keys `name`,
`size`, `modTime` and `sizeFormatted`. -/
structure LogFileView where
  name : String
  size : Int
  modTime : Int
  sizeFormatted : String
deriving DecidableEq, Repr

/-- How a call that returns `(value, error)` ends. -/
inductive Outcome (α : Type) where
  | ok (value : α)
  | error (err : String)
  | panicked
deriving DecidableEq, Repr

/-- The map `GetLogFilesList` builds for one file. -/
def viewOf (file : FileInfo) : Option LogFileView :=
  (formatFileSize file.size).map
    (fun s => { name := file.name, size := file.size, modTime := file.modTime,
                sizeFormatted := s })

/-- The method `GetLogFilesList`. -/
def GetLogFilesList (srt : SliceSort) (d : LogDir) : Outcome (List LogFileView) :=
  match getLogFiles d with
  | .error err => .error err
  | .ok files =>
    match files.mapM viewOf with
    | none => .panicked
    | some result =>
      .ok (srt LogFileView (fun a b => decide (a.modTime > b.modTime)) result)

/-! ## The retention policy in the words of the specification -/

/-- The deletion set as the specification words it: (a) every candidate whose
age exceeds `maxAge`, and (b) if the candidate count exceeds `maxFiles`, the
oldest `count - maxFiles` candidates among those not selected by (a). -/
def specDeletionSet (lrs : LogRotationService) (now : Int) (files : List FileInfo) :
    List String :=
  let selected := files.filter (fun f => decide (timeSub now f.modTime > lrs.maxAge))
  let others := files.filter (fun f => !decide (timeSub now f.modTime > lrs.maxAge))
  let oldest :=
    if (files.length : Int) > lrs.maxFiles then
      (List.insertionSort (fun a b => a.modTime ≤ b.modTime) others).take
        ((files.length : Int) - lrs.maxFiles).toNat
    else []
  (selected ++ oldest).map (·.name)

/-- The order of two names as Go compares strings, character by character. -/
def charsLe : List Char → List Char → Bool
  | [], _ => true
  | _ :: _, [] => false
  | a :: as, b :: bs =>
    if a.toNat < b.toNat then true
    else if b.toNat < a.toNat then false
    else charsLe as bs

/-- The eviction order of the specification: modification time ascending, ties
broken by name ascending. -/
def evictionBefore (a b : FileInfo) : Bool :=
  decide (a.modTime < b.modTime) ||
    (decide (a.modTime = b.modTime) && charsLe a.name.data b.name.data)

/-- The candidates in the eviction order of the specification. -/
def specEvictionOrder (files : List FileInfo) : List FileInfo :=
  List.insertionSort (fun a b => evictionBefore a b = true) files

/-- The files the specification has the count-based eviction delete: the first
`n - maxFiles` in its eviction order. -/
def specEvicted (lrs : LogRotationService) (files : List FileInfo) : List String :=
  ((specEvictionOrder files).take ((files.length : Int) - lrs.maxFiles).toNat).map (·.name)

/-! ## Sample directories -/

/-- A log file of 1 January, last written at instant 0. -/
def sampleJan1 : DirEntry := ⟨"pawtroli_2024-01-01.log", false, 10, 0, false⟩

/-- A log file of 2 January, last written at instant 50. -/
def sampleJan2 : DirEntry := ⟨"pawtroli_2024-01-02.log", false, 1536, 50, false⟩

/-- A log file of 3 January, last written at instant 60. -/
def sampleJan3 : DirEntry := ⟨"pawtroli_2024-01-03.log", false, 1048576, 60, false⟩

/-- A directory with three log files of distinct modification times. -/
def sampleDir : LogDir := ⟨none, [sampleJan1, sampleJan2, sampleJan3]⟩

/-- The candidates `getLogFiles` returns on `sampleDir`. -/
def sampleFiles : List FileInfo :=
  [⟨"pawtroli_2024-01-01.log", 10, 0⟩, ⟨"pawtroli_2024-01-02.log", 1536, 50⟩,
   ⟨"pawtroli_2024-01-03.log", 1048576, 60⟩]

/-- Five candidates of distinct modification times, listed in no particular
order. -/
def sampleFive : List FileInfo :=
  [⟨"pawtroli_2024-01-03.log", 1048576, 60⟩, ⟨"pawtroli_2024-01-01.log", 10, 0⟩,
   ⟨"pawtroli_2024-01-05.log", 3, 80⟩, ⟨"pawtroli_2024-01-02.log", 1536, 50⟩,
   ⟨"pawtroli_2024-01-04.log", 7, 70⟩]

/-- A directory with two files that are not named after a date. -/
def sampleUndated : LogDir :=
  ⟨none, [⟨"pawtroli_backup.log", false, 5, 0, false⟩, ⟨"pawtroli_.log", false, 5, 0, false⟩]⟩

/-- A readable directory with no log file: a text file and a sub-directory. -/
def sampleNoLogs : LogDir :=
  ⟨none, [⟨"notes.txt", false, 5, 0, false⟩, ⟨"pawtroli_old.log", true, 0, 0, false⟩]⟩

/-! ## The naming convention in the words of the specification -/

/-- A date in the form `YYYY-MM-DD`: four digits, a dash, two digits, a dash,
two digits. -/
def isDateForm (cs : List Char) : Bool :=
  match cs with
  | [y1, y2, y3, y4, s1, m1, m2, s2, d1, d2] =>
    y1.isDigit && y2.isDigit && y3.isDigit && y4.isDigit && s1 == '-' &&
      m1.isDigit && m2.isDigit && s2 == '-' && d1.isDigit && d2.isDigit
  | _ => false

/-- The naming convention of the specification, `<fixed-prefix>_<YYYY-MM-DD>.log`:
the name is the prefix `pawtroli`, an underscore, a date and the suffix `.log`. -/
def specLogFileName (name : String) : Bool :=
  ("pawtroli".data ++ ['_']).isPrefixOf name.data &&
    isDateForm ((name.data.drop 9).take 10) && (name.data.drop 19 == ".log".data)

/-! ## The logger: `InitLogger`, `CloseLogger`, `RotateLogFile` -/

/-- A calendar date, as `time.Now()` gives it. -/
structure Date where
  year : Nat
  month : Nat
  day : Nat
deriving DecidableEq, Repr

/-- The library's `appendInt(b, x, width)` for `x ≥ 0`: the decimal digits of `x`,
padded on the left with zeros to `width`. -/
def appendInt (x width : Nat) : List Char :=
  List.replicate (width - (Nat.toDigits 10 x).length) '0' ++ Nat.toDigits 10 x

/-- The call `t.Format("2006-01-02")`. -/
def Date.format (d : Date) : String :=
  String.mk (appendInt d.year 4 ++ '-' :: appendInt d.month 2 ++ '-' :: appendInt d.day 2)

/-- The name `fmt.Sprintf("pawtroli_%s.log", t.Format("2006-01-02"))`. -/
def logFileNameOf (d : Date) : String := "pawtroli_" ++ d.format ++ ".log"

/-- The function `filepath.Base` (slash-separated paths): the last element of the
path, trailing slashes removed; `.` for the empty path and `/` for a path of
slashes only. -/
def filepathBase (path : String) : String :=
  if path = "" then "."
  else
    let rev := path.data.reverse.dropWhile (fun c => c == '/')
    let last := (rev.takeWhile (fun c => !(c == '/'))).reverse
    if last = [] then "/" else String.mk last

/-- The call `filepath.Join(dir, name)` for a directory and a file name that needs
no cleaning (no separator, not `.` or `..`), as in `InitLogger`. -/
def filepathJoin (dir name : String) : String := dir ++ "/" ++ name

/-- A value `*os.File`: the name it was opened under, and whether `Close` has
been called on it. -/
structure OsFile where
  name : String
  closed : Bool
deriving DecidableEq, Repr

/-- The package variables of `logger`: `logFile` (`none` is the nil pointer), and
the path of the file the four loggers write to (`none` while they are nil). -/
structure LoggerState where
  logFile : Option OsFile
  loggers : Option String
deriving DecidableEq, Repr

/-- What the logger does to the outside: the filesystem calls and the lines
printed through `InfoLogger`. -/
inductive LogEvent where
  | mkdirAll (dir : String)
  | openFile (path : String)
  | closeFile (name : String)
  | logInfo (msg : String)
deriving DecidableEq, Repr

/-- What the filesystem answers during one call: the error of `os.MkdirAll` and
the error of `os.OpenFile`, if any. -/
structure LogEnv where
  mkdirErr : Option String
  openErr : Option String
deriving DecidableEq, Repr

/-- The function `InitLogger`, run on the date `now`: its result, the package
variables after it, and what it did. When `os.OpenFile` fails, the assignment
`logFile, err = os.OpenFile(...)` has set `logFile` to nil. -/
def InitLogger (env : LogEnv) (now : Date) (s : LoggerState) :
    Outcome Unit × LoggerState × List LogEvent :=
  let logDir := "logs"
  match env.mkdirErr with
  | some err =>
    (.error ("failed to create log directory: " ++ err), s, [.mkdirAll logDir])
  | none =>
    let logFileName := logFileNameOf now
    let logFilePath := filepathJoin logDir logFileName
    match env.openErr with
    | some err =>
      (.error ("failed to open log file: " ++ err), { s with logFile := none },
        [.mkdirAll logDir, .openFile logFilePath])
    | none =>
      (.ok (), { logFile := some ⟨logFilePath, false⟩, loggers := some logFilePath },
        [.mkdirAll logDir, .openFile logFilePath, .logInfo "Logger initialized successfully"])

/-- The function `LogInfo`: it prints when `InfoLogger` is not nil. -/
def LogInfo (s : LoggerState) (msg : String) : List LogEvent :=
  match s.loggers with
  | some _ => [.logInfo msg]
  | none => []

/-- The function `CloseLogger`. -/
def CloseLogger (s : LoggerState) : LoggerState × List LogEvent :=
  match s.logFile with
  | some f => ({ s with logFile := some { f with closed := true } }, [.closeFile f.name])
  | none => (s, [])

/-- The function `RotateLogFile`. `now` is the date `time.Now()` gives in
`RotateLogFile`, `nowInit` the date it gives afterwards in `InitLogger`. With
`logFile` nil the call `logFile.Name()` dereferences a nil pointer. -/
def RotateLogFile (env : LogEnv) (now nowInit : Date) (s : LoggerState) :
    Outcome Unit × LoggerState × List LogEvent :=
  let newLogFileName := logFileNameOf now
  match s.logFile with
  | none => (.panicked, s, [])
  | some f =>
    let currentLogFileName := filepathBase f.name
    if newLogFileName != currentLogFileName then
      let ev := LogInfo s "Rotating log file..."
      let c := CloseLogger s
      let r := InitLogger env nowInit c.1
      (r.1, r.2.1, ev ++ c.2 ++ r.2.2)
    else (.ok (), s, [])

/-- Whether an event is a call of `os.OpenFile`. -/
def LogEvent.isOpen : LogEvent → Bool
  | .openFile _ => true
  | _ => false

/-- The logger after a successful `InitLogger` on 1 January 2024. -/
def sampleLogger : LoggerState :=
  { logFile := some ⟨"logs/pawtroli_2024-01-01.log", false⟩,
    loggers := some "logs/pawtroli_2024-01-01.log" }

/-- A directory in which the file of 2 January went away after the directory was
read: `entry.Info()` fails for it. -/
def sampleVanished : LogDir :=
  ⟨none, [sampleJan1, ⟨"pawtroli_2024-01-02.log", false, 1536, 50, true⟩]⟩

/-! ## One round of the background loop -/

/-- What one firing of the ticker meets: the answers of the filesystem to the
logger, the dates `time.Now()` gives in `RotateLogFile` and in `InitLogger`, the
instant it gives in `cleanupOldLogs`, the removals the filesystem refuses, and
the state of `lrs.logDir` when the sweep reads it. -/
structure TickInput where
  env : LogEnv
  today : Date
  todayInit : Date
  now : Int
  rmFails : String → Bool
  dir : LogDir

/-- How the body of `case <-lrs.rotationTicker.C:` ends: it completes, with the
result of `RotateLogFile` (an error is logged, not returned) and the outcome of
`cleanupOldLogs`, or it panics. -/
inductive TickResult where
  | completed (rotate : Outcome Unit) (sweep : SweepOutcome)
  | panicked
deriving DecidableEq, Repr

/-- The body of `case <-lrs.rotationTicker.C:` in `Start`: `RotateLogFile`, then
`cleanupOldLogs`. -/
def runTick (srt : SliceSort) (lrs : LogRotationService) (i : TickInput) (s : LoggerState) :
    TickResult × LoggerState :=
  match RotateLogFile i.env i.today i.todayInit s with
  | (.panicked, s1, _) => (.panicked, s1)
  | (r, s1, _) =>
    match cleanupOldLogs srt lrs i.now i.rmFails i.dir with
    | (.panicked, _) => (.panicked, s1)
    | (o, _) => (.completed r o, s1)

/-- The firings of the ticker one after the other; a panic in the background
goroutine ends the process, so no round follows it. -/
def runTicks (srt : SliceSort) (lrs : LogRotationService) :
    List TickInput → LoggerState → List TickResult × LoggerState
  | [], s => ([], s)
  | i :: rest, s =>
    match runTick srt lrs i s with
    | (.panicked, s1) => ([.panicked], s1)
    | (r, s1) => (r :: (runTicks srt lrs rest s1).1, (runTicks srt lrs rest s1).2)

/-- A firing on 2 January at which `os.OpenFile` fails. -/
def sampleTickOpenFails : TickInput :=
  { env := ⟨none, some "no space left on device"⟩, today := ⟨2024, 1, 2⟩,
    todayInit := ⟨2024, 1, 2⟩, now := 100, rmFails := fun _ => false, dir := sampleDir }

/-- A firing on 2 January at which the filesystem refuses nothing. -/
def sampleTickFine : TickInput :=
  { env := ⟨none, none⟩, today := ⟨2024, 1, 2⟩, todayInit := ⟨2024, 1, 2⟩, now := 200,
    rmFails := fun _ => false, dir := sampleDir }

/-! ## The scheduler: `Start`, `Stop` and the background loops

The goroutines of `Start` run beside the caller. The scheduler is a state with
one step per action: the calls `Start` and `Stop` of the caller, the firing of a
ticker, a loop taking a tick, and a loop finishing its `stopChan` case. The
bodies of the sweeps and rotations are counted, not run. -/

/-- A `*time.Ticker`: whether `Stop` has been called on it, and whether its
channel `C` (of capacity 1) holds a tick. -/
structure Ticker where
  stopped : Bool
  pending : Bool
deriving DecidableEq, Repr

/-- The state of a `LogRotationService` and its goroutines. `tickers` are the
tickers created so far and `rotationTicker` the field (an index, `none` for nil).
`selecting` has one element per background loop blocked in `select`: the ticker
whose channel it waits on, beside `stopChan`. `stopping` counts the loops that
have received from `stopChan` and not yet run `lrs.rotationTicker.Stop()`,
`returned` the loops that have returned. `rotations` and `sweeps` count the calls
of `RotateLogFile` and `cleanupOldLogs`. -/
structure Scheduler where
  tickers : List Ticker
  rotationTicker : Option Nat
  selecting : List Nat
  stopping : Nat
  returned : Nat
  rotations : Nat
  sweeps : Nat
deriving DecidableEq, Repr

/-- The scheduler after `NewLogRotationService`: no ticker, no loop. -/
def Scheduler.fresh : Scheduler :=
  { tickers := [], rotationTicker := none, selecting := [], stopping := 0, returned := 0,
    rotations := 0, sweeps := 0 }

/-- The method `Start`: the initial cleanup, a new ticker stored in
`rotationTicker`, and a new goroutine, which enters `select` on that ticker. -/
def Scheduler.Start (s : Scheduler) : Scheduler :=
  { s with
    sweeps := s.sweeps + 1
    tickers := s.tickers ++ [⟨false, false⟩]
    rotationTicker := some s.tickers.length
    selecting := s.selecting ++ [s.tickers.length] }

/-- How a call of `Stop` ends: it returns, or the send on `stopChan` finds no
loop in `select` to receive it and the caller stays blocked. -/
inductive StopResult where
  | returned (s : Scheduler)
  | blocked
deriving DecidableEq, Repr

/-- The method `Stop`. With `rotationTicker` nil it returns at once. Otherwise it
sends on the unbuffered `stopChan`: one of the loops in `select` (chosen by
`pick`) receives the value and enters its `stopChan` case. -/
def Scheduler.Stop (pick : Nat) (s : Scheduler) : StopResult :=
  match s.rotationTicker with
  | none => .returned s
  | some _ =>
    if s.selecting = [] then .blocked
    else
      .returned { s with
        selecting := s.selecting.eraseIdx (pick % s.selecting.length)
        stopping := s.stopping + 1 }

/-- What happens beside the caller: ticker `i` fires, the loop `g` of those in
`select` takes a tick, or a loop finishes its `stopChan` case. -/
inductive BgStep where
  | fire (i : Nat)
  | tick (g : Nat)
  | finishStop
deriving DecidableEq, Repr

/-- One background step. A stopped ticker does not fire and a full channel drops
the tick. A loop takes a tick from the channel it waits on, runs `RotateLogFile`
and `cleanupOldLogs`, and enters `select` again on the current `rotationTicker`.
A loop in its `stopChan` case calls `lrs.rotationTicker.Stop()` and returns. A
step that cannot happen leaves the state as it is. -/
def Scheduler.step (s : Scheduler) : BgStep → Scheduler
  | .fire i =>
    match s.tickers.get? i with
    | some t =>
      if t.stopped || t.pending then s
      else { s with tickers := s.tickers.set i { t with pending := true } }
    | none => s
  | .tick g =>
    match s.selecting.get? g, s.rotationTicker with
    | some i, some cur =>
      match s.tickers.get? i with
      | some t =>
        if t.pending then
          { s with
            tickers := s.tickers.set i { t with pending := false }
            selecting := s.selecting.set g cur
            rotations := s.rotations + 1
            sweeps := s.sweeps + 1 }
        else s
      | none => s
    | _, _ => s
  | .finishStop =>
    if s.stopping = 0 then s
    else
      { s with
        stopping := s.stopping - 1
        returned := s.returned + 1
        tickers :=
          match s.rotationTicker with
          | some cur =>
            match s.tickers.get? cur with
            | some t => s.tickers.set cur { t with stopped := true }
            | none => s.tickers
          | none => s.tickers }

/-- A run of background steps. -/
def Scheduler.run (s : Scheduler) (steps : List BgStep) : Scheduler :=
  steps.foldl Scheduler.step s

/-! ## Library routines: `pdqsort_func`, the sort behind `sort.Slice`

`sort.Slice(x, less)` calls `pdqsort_func(data, 0, n, bits.Len(n))` (Go 1.19 and
later). The slice is a list, `data.Less(i, j)` and `data.Swap(i, j)` act on
indices, and every loop is a recursion on the number of rounds it has left. -/

/-- The call `data.Less(i, j)`. -/
def lessAt {α : Type} (less : α → α → Bool) (data : List α) (i j : Nat) : Bool :=
  match data.get? i, data.get? j with
  | some x, some y => less x y
  | _, _ => false

/-- The call `data.Swap(i, j)`. -/
def swapAt {α : Type} (data : List α) (i j : Nat) : List α :=
  match data.get? i, data.get? j with
  | some x, some y => (data.set i y).set j x
  | _, _ => data

/-- The function `bits.Len`: the number of bits of `n`; the first argument bounds
the recursion. -/
def bitsLenAux : Nat → Nat → Nat
  | 0, _ => 0
  | fuel + 1, n => if n = 0 then 0 else 1 + bitsLenAux fuel (n / 2)

/-- The function `bits.Len`. -/
def bitsLen (n : Nat) : Nat := bitsLenAux n n

/-- The inner loop of `insertionSort_func`,
`for j := i; j > a && data.Less(j, j-1); j-- { data.Swap(j, j-1) }`, from `j`. -/
def insertionInner {α : Type} (less : α → α → Bool) (a : Nat) : Nat → List α → List α
  | 0, data => data
  | j + 1, data =>
    if a < j + 1 && lessAt less data (j + 1) j then
      insertionInner less a j (swapAt data (j + 1) j)
    else data

/-- The function `insertionSort_func(data, a, b)`. -/
def insertionSortFunc {α : Type} (less : α → α → Bool) (data : List α) (a b : Nat) : List α :=
  (List.range' (a + 1) (b - (a + 1))).foldl (fun d i => insertionInner less a i d) data

/-- The loop of `siftDown_func(data, lo, hi, first)`, from `root`. -/
def siftDownFunc {α : Type} (less : α → α → Bool) (first hi : Nat) :
    Nat → Nat → List α → List α
  | 0, _, data => data
  | fuel + 1, root, data =>
    if 2 * root + 1 ≥ hi then data
    else
      let child :=
        if 2 * root + 2 < hi && lessAt less data (first + (2 * root + 1)) (first + (2 * root + 2))
        then 2 * root + 2 else 2 * root + 1
      if !lessAt less data (first + root) (first + child) then data
      else siftDownFunc less first hi fuel child (swapAt data (first + root) (first + child))

/-- The function `heapSort_func(data, a, b)`. -/
def heapSortFunc {α : Type} (less : α → α → Bool) (data : List α) (a b : Nat) : List α :=
  let hi := b - a
  let built := (List.range ((hi - 1) / 2 + 1)).reverse.foldl
    (fun d i => siftDownFunc less a hi hi i d) data
  (List.range hi).reverse.foldl
    (fun d i => siftDownFunc less a i i 0 (swapAt d a (a + i))) built

/-- The method `Next` of `xorshift`, on 64 bits. -/
def xorshiftNext (r : Nat) : Nat :=
  let r1 := r ^^^ ((r <<< 13) % 2 ^ 64)
  let r2 := r1 ^^^ (r1 >>> 7)
  r2 ^^^ ((r2 <<< 17) % 2 ^ 64)

/-- The index `other` of `breakPatterns_func` for the random value `r`. -/
def breakOther (length r : Nat) : Nat :=
  let other := r % 2 ^ bitsLen length
  if other ≥ length then other - length else other

/-- The function `breakPatterns_func(data, a, b)`. -/
def breakPatternsFunc {α : Type} (data : List α) (a b : Nat) : List α :=
  let length := b - a
  if length ≥ 8 then
    let idx := a + (length / 4) * 2 - 1
    let r1 := xorshiftNext length
    let r2 := xorshiftNext r1
    let r3 := xorshiftNext r2
    let d1 := swapAt data (idx - 1) (a + breakOther length r1)
    let d2 := swapAt d1 idx (a + breakOther length r2)
    swapAt d2 (idx + 1) (a + breakOther length r3)
  else data

/-- The type `sortedHint`. -/
inductive SortedHint where
  | unknownHint
  | increasingHint
  | decreasingHint
deriving DecidableEq, Repr

/-- The function `order2_func(data, a, b, swaps)`: the two indices in order, and
the count of swaps. -/
def order2Func {α : Type} (less : α → α → Bool) (data : List α) (a b swaps : Nat) :
    Nat × Nat × Nat :=
  if lessAt less data b a then (b, a, swaps + 1) else (a, b, swaps)

/-- The function `median_func(data, a, b, c, swaps)`: the index of the median, and
the count of swaps. -/
def medianFunc {α : Type} (less : α → α → Bool) (data : List α) (a b c swaps : Nat) :
    Nat × Nat :=
  let r1 := order2Func less data a b swaps
  let r2 := order2Func less data r1.2.1 c r1.2.2
  let r3 := order2Func less data r1.1 r2.1 r2.2.2
  (r3.2.1, r3.2.2)

/-- The function `medianAdjacent_func(data, a, swaps)`. -/
def medianAdjacentFunc {α : Type} (less : α → α → Bool) (data : List α) (a swaps : Nat) :
    Nat × Nat :=
  medianFunc less data (a - 1) a (a + 1) swaps

/-- The function `choosePivot_func(data, a, b)`. -/
def choosePivotFunc {α : Type} (less : α → α → Bool) (data : List α) (a b : Nat) :
    Nat × SortedHint :=
  let l := b - a
  let i := a + l / 4 * 1
  let j := a + l / 4 * 2
  let k := a + l / 4 * 3
  let r : Nat × Nat :=
    if l ≥ 8 then
      if l ≥ 50 then
        let mi := medianAdjacentFunc less data i 0
        let mj := medianAdjacentFunc less data j mi.2
        let mk := medianAdjacentFunc less data k mj.2
        medianFunc less data mi.1 mj.1 mk.1 mk.2
      else medianFunc less data i j k 0
    else (j, 0)
  if r.2 = 0 then (r.1, .increasingHint)
  else if r.2 = 12 then (r.1, .decreasingHint)
  else (r.1, .unknownHint)

/-- The function `reverseRange_func(data, a, b)`. -/
def reverseRangeFunc {α : Type} (data : List α) (a b : Nat) : List α :=
  data.take a ++ ((data.drop a).take (b - a)).reverse ++ data.drop b

/-- The loop `for i < b && !data.Less(i, i-1) { i++ }`. -/
def scanSorted {α : Type} (less : α → α → Bool) (data : List α) (b : Nat) : Nat → Nat → Nat
  | 0, i => i
  | fuel + 1, i =>
    if i < b && !lessAt less data i (i - 1) then scanSorted less data b fuel (i + 1) else i

/-- The loop `for j := i - 1; j >= 1; j-- { ... }` of `partialInsertionSort_func`,
from `j`. -/
def shiftLeft {α : Type} (less : α → α → Bool) : Nat → List α → List α
  | 0, data => data
  | j + 1, data =>
    if !lessAt less data (j + 1) j then data
    else shiftLeft less j (swapAt data (j + 1) j)

/-- The loop `for j := i + 1; j < b; j++ { ... }` of `partialInsertionSort_func`,
from `j`. -/
def shiftRight {α : Type} (less : α → α → Bool) (b : Nat) : Nat → Nat → List α → List α
  | 0, _, data => data
  | fuel + 1, j, data =>
    if j < b then
      if !lessAt less data j (j - 1) then data
      else shiftRight less b fuel (j + 1) (swapAt data j (j - 1))
    else data

/-- The loop `for j := 0; j < maxSteps; j++ { ... }` of
`partialInsertionSort_func`, with `steps` rounds to go. -/
def partialInsertionLoop {α : Type} (less : α → α → Bool) (a b : Nat) :
    Nat → Nat → List α → List α × Bool
  | 0, _, data => (data, false)
  | steps + 1, i, data =>
    let i1 := scanSorted less data b (b - i) i
    if i1 = b then (data, true)
    else if b - a < 50 then (data, false)
    else
      let d1 := swapAt data i1 (i1 - 1)
      let d2 := if i1 - a ≥ 2 then shiftLeft less (i1 - 1) d1 else d1
      let d3 := if b - i1 ≥ 2 then shiftRight less b (b - (i1 + 1)) (i1 + 1) d2 else d2
      partialInsertionLoop less a b steps i1 d3

/-- The function `partialInsertionSort_func(data, a, b)`: the slice after it, and
whether it is sorted. -/
def partialInsertionSortFunc {α : Type} (less : α → α → Bool) (data : List α) (a b : Nat) :
    List α × Bool :=
  partialInsertionLoop less a b 5 (a + 1) data

/-- The loop `for i <= j && data.Less(i, a) { i++ }`. -/
def scanLess {α : Type} (less : α → α → Bool) (data : List α) (a j : Nat) : Nat → Nat → Nat
  | 0, i => i
  | fuel + 1, i =>
    if i ≤ j && lessAt less data i a then scanLess less data a j fuel (i + 1) else i

/-- The loop `for i <= j && !data.Less(j, a) { j-- }`. -/
def scanNotLess {α : Type} (less : α → α → Bool) (data : List α) (a i : Nat) : Nat → Nat
  | 0 => 0
  | j + 1 =>
    if i ≤ j + 1 && !lessAt less data (j + 1) a then scanNotLess less data a i j else j + 1

/-- The second loop `for { ... }` of `partition_func`: the slice and `j` when it
breaks; `none` when the rounds allowed run out. -/
def partitionLoop {α : Type} (less : α → α → Bool) (a : Nat) :
    Nat → List α → Nat → Nat → Option (List α × Nat)
  | 0, _, _, _ => none
  | fuel + 1, data, i, j =>
    let i1 := scanLess less data a j (j + 1 - i) i
    let j1 := scanNotLess less data a i1 j
    if i1 > j1 then some (data, j1)
    else partitionLoop less a fuel (swapAt data i1 j1) (i1 + 1) (j1 - 1)

/-- The function `partition_func(data, a, b, pivot)`: the slice after it, the new
index of the pivot, and whether the slice was already partitioned. -/
def partitionFunc {α : Type} (less : α → α → Bool) (data : List α) (a b pivot : Nat) :
    Option (List α × Nat × Bool) :=
  let d0 := swapAt data a pivot
  let i := scanLess less d0 a (b - 1) (b - (a + 1)) (a + 1)
  let j := scanNotLess less d0 a i (b - 1)
  if i > j then some (swapAt d0 j a, j, true)
  else
    match partitionLoop less a (b - a) (swapAt d0 i j) (i + 1) (j - 1) with
    | none => none
    | some r => some (swapAt r.1 r.2 a, r.2, false)

/-- The loop `for i <= j && !data.Less(a, i) { i++ }`. -/
def scanNotGreater {α : Type} (less : α → α → Bool) (data : List α) (a j : Nat) :
    Nat → Nat → Nat
  | 0, i => i
  | fuel + 1, i =>
    if i ≤ j && !lessAt less data a i then scanNotGreater less data a j fuel (i + 1) else i

/-- The loop `for i <= j && data.Less(a, j) { j-- }`. -/
def scanGreater {α : Type} (less : α → α → Bool) (data : List α) (a i : Nat) : Nat → Nat
  | 0 => 0
  | j + 1 =>
    if i ≤ j + 1 && lessAt less data a (j + 1) then scanGreater less data a i j else j + 1

/-- The loop `for { ... }` of `partitionEqual_func`: the slice and `i` when it
breaks; `none` when the rounds allowed run out. -/
def partitionEqualLoop {α : Type} (less : α → α → Bool) (a : Nat) :
    Nat → List α → Nat → Nat → Option (List α × Nat)
  | 0, _, _, _ => none
  | fuel + 1, data, i, j =>
    let i1 := scanNotGreater less data a j (j + 1 - i) i
    let j1 := scanGreater less data a i1 j
    if i1 > j1 then some (data, i1)
    else partitionEqualLoop less a fuel (swapAt data i1 j1) (i1 + 1) (j1 - 1)

/-- The function `partitionEqual_func(data, a, b, pivot)`. -/
def partitionEqualFunc {α : Type} (less : α → α → Bool) (data : List α) (a b pivot : Nat) :
    Option (List α × Nat) :=
  partitionEqualLoop less a (b - a + 1) (swapAt data a pivot) (a + 1) (b - 1)

/-- The function `pdqsort_func(data, a, b, limit)`, entered with the values of its
variables `wasBalanced` and `wasPartitioned`; one unit of the first argument is
spent per round of its loop, and `none` is returned when it runs out. -/
def pdqsortFunc {α : Type} (less : α → α → Bool) :
    Nat → List α → Nat → Nat → Nat → Bool → Bool → Option (List α)
  | 0, _, _, _, _, _, _ => none
  | fuel + 1, data, a, b, limit, wasBalanced, wasPartitioned =>
    let length := b - a
    if length ≤ 12 then some (insertionSortFunc less data a b)
    else if limit = 0 then some (heapSortFunc less data a b)
    else
      let data1 := if !wasBalanced then breakPatternsFunc data a b else data
      let limit1 := if !wasBalanced then limit - 1 else limit
      let chosen := choosePivotFunc less data1 a b
      let data2 :=
        if chosen.2 = .decreasingHint then reverseRangeFunc data1 a b else data1
      let pivot := if chosen.2 = .decreasingHint then (b - 1) - (chosen.1 - a) else chosen.1
      let hint := if chosen.2 = .decreasingHint then SortedHint.increasingHint else chosen.2
      let tried :=
        if wasBalanced && wasPartitioned && hint = .increasingHint then
          partialInsertionSortFunc less data2 a b
        else (data2, false)
      if tried.2 then some tried.1
      else if 0 < a && !lessAt less tried.1 (a - 1) pivot then
        match partitionEqualFunc less tried.1 a b pivot with
        | none => none
        | some r => pdqsortFunc less fuel r.1 r.2 b limit1 wasBalanced wasPartitioned
      else
        match partitionFunc less tried.1 a b pivot with
        | none => none
        | some p =>
          let mid := p.2.1
          if mid - a < b - mid then
            match pdqsortFunc less fuel p.1 a mid limit1 true true with
            | none => none
            | some d =>
              pdqsortFunc less fuel d (mid + 1) b limit1 (mid - a ≥ length / 8) p.2.2
          else
            match pdqsortFunc less fuel p.1 (mid + 1) b limit1 true true with
            | none => none
            | some d =>
              pdqsortFunc less fuel d a mid limit1 (b - mid ≥ length / 8) p.2.2

/-- The function `sort.Slice`: `pdqsort_func(data, 0, n, bits.Len(n))`; `none` when
the rounds allowed run out. -/
def sortSliceFunc {α : Type} (less : α → α → Bool) (x : List α) : Option (List α) :=
  pdqsortFunc less (2 * x.length + 2) x 0 x.length (bitsLen x.length) true true

/-- The routine `sort.Slice` as a `SliceSort`. -/
def pdqSorter : SliceSort := fun _ less x => (sortSliceFunc less x).getD x

/-- Whether the entries are in the order in which `os.ReadDir` returns them:
sorted by file name, ascending. -/
def sortedByName : List DirEntry → Bool
  | [] => true
  | [_] => true
  | a :: b :: rest =>
    charsLe a.name.data b.name.data && !(a.name == b.name) && sortedByName (b :: rest)

/-- A directory of thirteen log files, in the order of `os.ReadDir`. The files of
4 and 7 January were last written at instant 0, the others at instant 10. -/
def sampleThirteen : LogDir :=
  ⟨none,
    [⟨"pawtroli_2024-01-01.log", false, 10, 10, false⟩,
     ⟨"pawtroli_2024-01-02.log", false, 10, 10, false⟩,
     ⟨"pawtroli_2024-01-03.log", false, 10, 10, false⟩,
     ⟨"pawtroli_2024-01-04.log", false, 10, 0, false⟩,
     ⟨"pawtroli_2024-01-05.log", false, 10, 10, false⟩,
     ⟨"pawtroli_2024-01-06.log", false, 10, 10, false⟩,
     ⟨"pawtroli_2024-01-07.log", false, 10, 0, false⟩,
     ⟨"pawtroli_2024-01-08.log", false, 10, 10, false⟩,
     ⟨"pawtroli_2024-01-09.log", false, 10, 10, false⟩,
     ⟨"pawtroli_2024-01-10.log", false, 10, 10, false⟩,
     ⟨"pawtroli_2024-01-11.log", false, 10, 10, false⟩,
     ⟨"pawtroli_2024-01-12.log", false, 10, 10, false⟩,
     ⟨"pawtroli_2024-01-13.log", false, 10, 10, false⟩]⟩

/-- The candidates `getLogFiles` returns on `sampleThirteen`. -/
def sampleThirteenFiles : List FileInfo :=
  sampleThirteen.entries.map (fun e => ⟨e.name, e.size, e.modTime⟩)

/-! ## Properties of `formatFileSize` -/

theorem roundShiftAux_zero (n fuel : Nat) (h : n < 2 ^ 53) (hf : 0 < fuel) :
    roundShiftAux n fuel 0 = 0 := by
  cases fuel with
  | zero => omega
  | succ f =>
    have h2 : n / 2 ^ 0 < 2 ^ 53 := by simpa using h
    simp only [roundShiftAux, if_pos h2]

theorem float64OfNat_exact (n : Nat) (h : n < 2 ^ 53) : float64OfNat n = n := by
  unfold float64OfNat
  rcases Nat.eq_zero_or_pos n with h0 | h0
  · subst h0; simp [roundShiftAux]
  · simp [roundShiftAux_zero n n h h0]

theorem formatFileSizeLoop_spec (m : Nat) :
    ∀ (n d : Int) (e : Nat), n.toNat = m → 1 ≤ n →
      ∃ j : Nat, formatFileSizeLoop n d e = (d * 1024 ^ j, e + j) ∧
        (1024 : Int) ^ j ≤ n ∧ n < 1024 ^ (j + 1) := by
  induction m using Nat.strong_induction_on with
  | _ m ih =>
    intro n d e hm hn
    rw [formatFileSizeLoop]
    by_cases hbig : 1024 ≤ n
    · have hlt : (n / 1024).toNat < m := by omega
      obtain ⟨j, hj, hlo, hhi⟩ := ih _ hlt (n / 1024) (d * 1024) (e + 1) rfl (by omega)
      refine ⟨j + 1, ?_, ?_, ?_⟩
      · rw [if_pos hbig, hj]
        simp only [Prod.mk.injEq]
        constructor
        · ring
        · omega
      · have := (Int.le_ediv_iff_mul_le (by norm_num : (0 : Int) < 1024)).1 hlo
        rw [pow_succ]; exact this
      · have := (Int.ediv_lt_iff_lt_mul (by norm_num : (0 : Int) < 1024)).1 hhi
        rw [pow_succ]; exact this
    · refine ⟨0, ?_, ?_, ?_⟩
      · rw [if_neg hbig]; simp
      · simpa using hn
      · simp; omega

theorem formatFileSize_bytes_eq (n : Int) (h0 : 0 ≤ n) (h1 : n < 1024) :
    formatFileSize n = some (String.mk (Nat.toDigits 10 n.toNat) ++ " B") := by
  obtain ⟨m, rfl⟩ := Int.eq_ofNat_of_zero_le h0
  simp only [formatFileSize, if_pos h1, fmtInt]
  rfl

theorem fmtFloat1_nearest (num den : Nat) (hden : 0 < den) :
    ∃ t : Nat, fmtFloat1 num den = toString (t / 10) ++ "." ++ toString (t % 10) ∧
      2 * (t : Int) * den - den ≤ 20 * num ∧ (20 * num : Int) ≤ 2 * t * den + den := by
  unfold fmtFloat1
  simp only []
  have hdm := Nat.div_add_mod (10 * num) den
  have hlt := Nat.mod_lt (10 * num) hden
  generalize 10 * num / den = q at *
  generalize 10 * num % den = r at *
  have hdmi : (den : Int) * q + r = 10 * num := by exact_mod_cast hdm
  have hr : (r : Int) < den := by exact_mod_cast hlt
  have e : (20 : Int) * num = 2 * (den * q) + 2 * r := by linarith
  split
  · rename_i hup
    have h2 : (den : Int) ≤ 2 * r := by
      rcases hup with h | h
      · have : (den : Int) < 2 * r := by exact_mod_cast h
        omega
      · have : (2 : Int) * r = den := by exact_mod_cast h.1
        omega
    have e2 : 2 * ((q + 1 : Nat) : Int) * den = 2 * (den * q) + 2 * den := by
      push_cast; ring
    exact ⟨q + 1, rfl, by linarith, by linarith⟩
  · rename_i hdown
    have h2 : (2 : Int) * r ≤ den := by
      have : ¬ den < 2 * r := fun h => hdown (Or.inl h)
      have : 2 * r ≤ den := by omega
      exact_mod_cast this
    have e2 : 2 * (q : Int) * den = 2 * (den * q) := by ring
    exact ⟨q, rfl, by linarith, by linarith⟩

theorem pow1024_unique (n : Int) (k k2 : Nat) (h1 : (1024 : Int) ^ k ≤ n)
    (h2 : n < 1024 ^ (k + 1)) (h3 : (1024 : Int) ^ k2 ≤ n) (h4 : n < 1024 ^ (k2 + 1)) :
    k2 = k := by
  by_contra hne
  rcases Nat.lt_or_gt_of_ne hne with h | h
  · have : (1024 : Int) ^ (k2 + 1) ≤ 1024 ^ k := pow_le_pow_right₀ (by norm_num) h
    omega
  · have : (1024 : Int) ^ (k + 1) ≤ 1024 ^ k2 := pow_le_pow_right₀ (by norm_num) h
    omega

theorem formatFileSize_scaled (n : Int) (h1 : 1024 ≤ n) (h2 : n < 2 ^ 63) :
    ∃ (k : Nat) (c : Char), 1 ≤ k ∧ k ≤ 6 ∧ (1024 : Int) ^ k ≤ n ∧ n < 1024 ^ (k + 1) ∧
      "KMGTPE".data.get? (k - 1) = some c ∧
      formatFileSize n =
        some (fmtFloat1 (float64OfNat n.toNat) (1024 ^ k) ++ " " ++ String.singleton c ++ "B") := by
  obtain ⟨j, hj, hlo, hhi⟩ :=
    formatFileSizeLoop_spec (n / 1024).toNat (n / 1024) 1024 0 rfl (by omega)
  have hlo2 : (1024 : Int) ^ (j + 1) ≤ n := by
    have := (Int.le_ediv_iff_mul_le (by norm_num : (0 : Int) < 1024)).1 hlo
    rw [pow_succ]; exact this
  have hhi2 : n < (1024 : Int) ^ (j + 1 + 1) := by
    have := (Int.ediv_lt_iff_lt_mul (by norm_num : (0 : Int) < 1024)).1 hhi
    rw [pow_succ]; exact this
  have hj5 : j ≤ 5 := by
    by_contra hcon
    have h7 : (1024 : Int) ^ (6 + 1) ≤ 1024 ^ (j + 1) :=
      pow_le_pow_right₀ (by norm_num) (by omega)
    have : (1024 : Int) ^ (6 + 1) = 2 ^ 70 := by norm_num
    have : (2 : Int) ^ 63 < 2 ^ 70 := by norm_num
    omega
  have hden : ((1024 : Int) * 1024 ^ j).toNat = 1024 ^ (j + 1) := by
    have : ((1024 : Int) * 1024 ^ j) = ((1024 ^ (j + 1) : Nat) : Int) := by
      push_cast; ring
    rw [this, Int.toNat_natCast]
  have hfmt : ∀ c, "KMGTPE".data.get? j = some c →
      formatFileSize n =
        some (fmtFloat1 (float64OfNat n.toNat) (1024 ^ (j + 1)) ++ " " ++
          String.singleton c ++ "B") := by
    intro c hc
    have hn : ¬ n < 1024 := by omega
    simp only [formatFileSize, if_neg hn, hj, zero_add, hc, hden]
  have hget : ∃ c, "KMGTPE".data.get? j = some c := by
    interval_cases j <;> exact ⟨_, rfl⟩
  obtain ⟨c, hc⟩ := hget
  exact ⟨j + 1, c, by omega, by omega, hlo2, hhi2, by simpa using hc, hfmt c hc⟩

/-- C4: for every size `n` with `0 ≤ n < 1024`, `formatFileSize n` is the decimal
rendering of `n` followed by `" B"`; in particular `formatFileSize 0 = "0 B"` and
`formatFileSize 1023 = "1023 B"`. -/
theorem formatFileSize_below_unit :
    (∀ n : Int, 0 ≤ n → n < 1024 →
      formatFileSize n = some (String.mk (Nat.toDigits 10 n.toNat) ++ " B")) ∧
    formatFileSize 0 = some "0 B" ∧ formatFileSize 1023 = some "1023 B" :=
  ⟨formatFileSize_bytes_eq, by decide, by decide⟩

theorem formatFileSize_below_unit_witness :
    (0 : Int) ≤ 512 ∧ (512 : Int) < 1024 ∧
      formatFileSize 512 = some (String.mk (Nat.toDigits 10 (512 : Int).toNat) ++ " B") :=
  ⟨by decide, by decide, formatFileSize_below_unit.1 512 (by decide) (by decide)⟩

/-- C5, amended: for every size `n ≥ 1024` (an `int64`), `formatFileSize n` is the value
`float64(n) / 1024 ^ k` printed with one decimal place (tenths `t` nearest to ten
times the value), a space, the `k`-th letter of `"KMGTPE"` and `"B"`, where `k` is
the unique integer with `1024 ^ k ≤ n < 1024 ^ (k + 1)`; `float64(n)` is `n` itself
below `2 ^ 53`; 1024 gives `"1.0 KB"`, 1536 gives `"1.5 KB"`, 1048576 gives `"1.0 MB"`. -/
theorem formatFileSize_unit_selection :
    (∀ n : Int, 1024 ≤ n → n < 2 ^ 63 →
      ∃ (k : Nat) (c : Char) (t : Nat),
        1 ≤ k ∧ k ≤ 6 ∧ (1024 : Int) ^ k ≤ n ∧ n < 1024 ^ (k + 1) ∧
        (∀ k2 : Nat, (1024 : Int) ^ k2 ≤ n → n < 1024 ^ (k2 + 1) → k2 = k) ∧
        "KMGTPE".data.get? (k - 1) = some c ∧
        formatFileSize n =
          some (toString (t / 10) ++ "." ++ toString (t % 10) ++ " " ++
            String.singleton c ++ "B") ∧
        2 * (t : Int) * 1024 ^ k - 1024 ^ k ≤ 20 * float64OfNat n.toNat ∧
        (20 * float64OfNat n.toNat : Int) ≤ 2 * t * 1024 ^ k + 1024 ^ k ∧
        (n < 2 ^ 53 → (float64OfNat n.toNat : Int) = n)) ∧
    formatFileSize 1024 = some "1.0 KB" ∧ formatFileSize 1536 = some "1.5 KB" ∧
    formatFileSize 1048576 = some "1.0 MB" := by
  refine ⟨?_, ?_, ?_, ?_⟩
  · intro n h1 h2
    obtain ⟨k, c, hk1, hk6, hlo, hhi, hc, hfmt⟩ := formatFileSize_scaled n h1 h2
    obtain ⟨t, ht, hta, htb⟩ :=
      fmtFloat1_nearest (float64OfNat n.toNat) (1024 ^ k) (by positivity)
    refine ⟨k, c, t, hk1, hk6, hlo, hhi, ?_, hc, ?_, ?_, ?_, ?_⟩
    · intro k2 h3 h4
      exact pow1024_unique n k k2 hlo hhi h3 h4
    · rw [hfmt, ht]
    · exact_mod_cast hta
    · exact_mod_cast htb
    · intro h53
      have hlt : n.toNat < 2 ^ 53 := by omega
      rw [float64OfNat_exact _ hlt]
      omega
  · simp [formatFileSize, formatFileSizeLoop]; decide
  · simp [formatFileSize, formatFileSizeLoop]; decide
  · simp [formatFileSize, formatFileSizeLoop]; decide

theorem formatFileSize_unit_selection_witness :
    ∃ (k : Nat) (c : Char) (t : Nat),
        1 ≤ k ∧ k ≤ 6 ∧ (1024 : Int) ^ k ≤ 1536 ∧ (1536 : Int) < 1024 ^ (k + 1) ∧
        (∀ k2 : Nat, (1024 : Int) ^ k2 ≤ 1536 → (1536 : Int) < 1024 ^ (k2 + 1) → k2 = k) ∧
        "KMGTPE".data.get? (k - 1) = some c ∧
        formatFileSize 1536 =
          some (toString (t / 10) ++ "." ++ toString (t % 10) ++ " " ++
            String.singleton c ++ "B") ∧
        2 * (t : Int) * 1024 ^ k - 1024 ^ k ≤ 20 * float64OfNat (1536 : Int).toNat ∧
        (20 * float64OfNat (1536 : Int).toNat : Int) ≤ 2 * t * 1024 ^ k + 1024 ^ k ∧
        ((1536 : Int) < 2 ^ 53 → (float64OfNat (1536 : Int).toNat : Int) = 1536) :=
  formatFileSize_unit_selection.1 1536 (by decide) (by decide)

/-! ## The insertion sort meets the contract of `sort.Slice` -/

theorem insertFromRight_perm {α : Type} (less : α → α → Bool) (x : α) (l : List α) :
    (insertFromRight less x l).Perm (x :: l) := by
  induction l with
  | nil => simp [insertFromRight]
  | cons y ys ih =>
    simp only [insertFromRight]
    split
    · exact ((List.Perm.cons y ih).trans (List.Perm.swap x y ys))
    · exact List.Perm.refl _

theorem foldl_insertFromRight_perm {α : Type} (less : α → α → Bool) (l : List α) :
    ∀ acc : List α,
      (l.foldl (fun acc x => insertFromRight less x acc) acc).Perm (acc ++ l) := by
  induction l with
  | nil => intro acc; simp
  | cons x xs ih =>
    intro acc
    simp only [List.foldl_cons]
    refine (ih _).trans ?_
    refine (List.Perm.append_right xs (insertFromRight_perm less x acc)).trans ?_
    simpa using (@List.perm_middle _ x acc xs).symm

theorem insertFromRight_pairwise {α : Type} (less : α → α → Bool)
    (hasym : ∀ a b, less a b = true → less b a = false)
    (hneg : ∀ a b c, less a c = true → less a b = true ∨ less b c = true)
    (x : α) (l : List α) (hl : l.Pairwise (fun a b => less a b = false)) :
    (insertFromRight less x l).Pairwise (fun a b => less a b = false) := by
  induction l with
  | nil => simp [insertFromRight]
  | cons y ys ih =>
    have hy := (List.pairwise_cons.1 hl).1
    have hys := (List.pairwise_cons.1 hl).2
    simp only [insertFromRight]
    split
    · rename_i hxy
      refine List.pairwise_cons.2 ⟨?_, ih hys⟩
      intro z hz
      rcases (List.mem_cons.1 ((insertFromRight_perm less x ys).mem_iff.1 hz)) with h | h
      · subst h; exact hasym _ _ hxy
      · exact hy z h
    · rename_i hxy
      refine List.pairwise_cons.2 ⟨?_, hl⟩
      intro z hz
      rcases List.mem_cons.1 hz with h | h
      · subst h; simpa using hxy
      · by_contra hcon
        have hxz : less x z = true := by simpa using hcon
        rcases hneg x y z hxz with h1 | h1
        · exact hxy h1
        · have := hy z h
          rw [h1] at this
          exact Bool.noConfusion this

theorem foldl_insertFromRight_pairwise {α : Type} (less : α → α → Bool)
    (hasym : ∀ a b, less a b = true → less b a = false)
    (hneg : ∀ a b c, less a c = true → less a b = true ∨ less b c = true)
    (l : List α) :
    ∀ acc : List α, acc.Pairwise (fun a b => less a b = false) →
      (l.foldl (fun acc x => insertFromRight less x acc) acc).Pairwise
        (fun a b => less a b = false) := by
  induction l with
  | nil => intro acc h; simpa using h
  | cons x xs ih =>
    intro acc h
    simp only [List.foldl_cons]
    exact ih _ (insertFromRight_pairwise less hasym hneg x acc h)

theorem insertionSorter_meets : SliceSort.Meets insertionSorter := by
  intro α less l
  constructor
  · unfold insertionSorter
    refine (List.reverse_perm _).trans ?_
    simpa using foldl_insertFromRight_perm less l []
  · intro hasym hneg
    unfold insertionSorter
    rw [List.pairwise_reverse]
    exact foldl_insertFromRight_pairwise less hasym hneg l [] List.Pairwise.nil

/-! ## The comparison functions of the service -/

theorem before_asymm (a b : FileInfo) :
    decide (a.modTime < b.modTime) = true → decide (b.modTime < a.modTime) = false := by
  simp only [decide_eq_true_eq, decide_eq_false_iff_not]; omega

theorem before_negTrans (a b c : FileInfo) :
    decide (a.modTime < c.modTime) = true →
      decide (a.modTime < b.modTime) = true ∨ decide (b.modTime < c.modTime) = true := by
  simp only [decide_eq_true_eq]; omega

theorem sorted_oldest_first (srt : SliceSort) (hs : srt.Meets) (files : List FileInfo) :
    (srt FileInfo (fun a b => decide (a.modTime < b.modTime)) files).Pairwise
      (fun a b => a.modTime ≤ b.modTime) := by
  have h := (hs FileInfo (fun a b => decide (a.modTime < b.modTime)) files).2
    before_asymm before_negTrans
  refine h.imp ?_
  intro a b hab
  simpa using hab

/-! ## The marking of `cleanupOldLogs` -/

theorem markExcess_eq (files : List FileInfo) :
    ∀ (todo i : Nat), i + todo ≤ files.length →
      markExcess files i todo = some (((files.drop i).take todo).map (·.name)) := by
  intro todo
  induction todo with
  | zero => intro i _; simp [markExcess]
  | succ k ih =>
    intro i hk
    have hlt : i < files.length := by omega
    have hget : files.get? i = some files[i] := by simp [List.getElem?_eq_getElem hlt]
    simp only [markExcess, hget, ih (i + 1) (by omega), Option.map_some']
    rw [List.drop_eq_getElem_cons hlt, List.take_succ_cons, List.map_cons]

theorem countMarked_eq (srt : SliceSort) (hs : srt.Meets) (lrs : LogRotationService)
    (files : List FileInfo) (hmax : 0 ≤ lrs.maxFiles) :
    countMarked srt lrs files =
      some (if (files.length : Int) > lrs.maxFiles then
        ((srt FileInfo (fun a b => decide (a.modTime < b.modTime)) files).take
          ((files.length : Int) - lrs.maxFiles).toNat).map (·.name)
      else []) := by
  unfold countMarked
  split
  · have hlen := (hs FileInfo (fun a b => decide (a.modTime < b.modTime)) files).1.length_eq
    have h := markExcess_eq (srt FileInfo (fun a b => decide (a.modTime < b.modTime)) files)
      ((files.length : Int) - lrs.maxFiles).toNat 0 (by omega)
    simpa using h
  · rfl

theorem filesToDelete_eq (srt : SliceSort) (hs : srt.Meets) (lrs : LogRotationService)
    (now : Int) (files : List FileInfo) (hmax : 0 ≤ lrs.maxFiles) :
    filesToDelete srt lrs now files =
      some (ageMarked lrs now files ++
        (if (files.length : Int) > lrs.maxFiles then
          ((srt FileInfo (fun a b => decide (a.modTime < b.modTime)) files).take
            ((files.length : Int) - lrs.maxFiles).toNat).map (·.name)
        else [])) := by
  simp only [filesToDelete, countMarked_eq srt hs lrs files hmax, Option.map_some']

/-! ## The removals of `cleanupOldLogs` -/

theorem osRemove_entries (rmFails : String → Bool) (entries : List DirEntry) (name : String) :
    (osRemove rmFails entries name).2 =
      entries.filter (fun e => !(e.name == name) || rmFails name) := by
  unfold osRemove
  by_cases hrf : rmFails name = true
  · simp [hrf]
  · have hrf2 : rmFails name = false := by simpa using hrf
    by_cases hany : entries.any (fun e => e.name == name) = true
    · simp [hrf2, hany]
    · simp only [hany, hrf2, Bool.false_and, Bool.or_false]
      simp only [Bool.false_eq_true, if_false]
      symm
      rw [List.filter_eq_self]
      intro e he
      simp only [List.any_eq_true, not_exists, not_and] at hany
      have := hany e he
      simpa using this

theorem removeMarked_entries (rmFails : String → Bool) (names : List String) :
    ∀ entries : List DirEntry,
      (removeMarked rmFails entries names).2 =
        entries.filter (fun e => names.all (fun n => !(e.name == n) || rmFails n)) := by
  induction names with
  | nil => intro entries; simp [removeMarked]
  | cons n ns ih =>
    intro entries
    simp only [removeMarked, ih, osRemove_entries, List.filter_filter, List.all_cons]
    congr 1
    funext e
    exact Bool.and_comm _ _

theorem removeMarked_names (rmFails : String → Bool) (names : List String) :
    ∀ entries : List DirEntry,
      (removeMarked rmFails entries names).1.map (·.1) = names := by
  induction names with
  | nil => intro entries; simp [removeMarked]
  | cons n ns ih => intro entries; simp [removeMarked, ih]

theorem removeMarked_ok_not_refused (rmFails : String → Bool) (names : List String) :
    ∀ (entries : List DirEntry) (n : String),
      (n, true) ∈ (removeMarked rmFails entries names).1 → rmFails n = false := by
  induction names with
  | nil => intro entries n h; simp [removeMarked] at h
  | cons m ms ih =>
    intro entries n h
    simp only [removeMarked, List.mem_cons, Prod.mk.injEq] at h
    rcases h with ⟨h1, h2⟩ | h
    · subst h1
      unfold osRemove at h2
      split at h2
      · rename_i hc
        simp only [Bool.and_eq_true, Bool.not_eq_true'] at hc
        exact hc.2
      · simp at h2
    · exact ih _ n h

theorem removeMarked_not_refused (rmFails : String → Bool) (names : List String)
    (entries : List DirEntry)
    (hok : ∀ a ∈ (removeMarked rmFails entries names).1, a.2 = true ∨ rmFails a.1 = false) :
    ∀ n ∈ names, rmFails n = false := by
  intro n hn
  rw [← removeMarked_names rmFails names entries] at hn
  obtain ⟨a, ha, rfl⟩ := List.mem_map.1 hn
  rcases hok a ha with h2 | h2
  · refine removeMarked_ok_not_refused rmFails names entries a.1 ?_
    have : a = (a.1, true) := by rw [← h2]
    rw [← this]; exact ha
  · exact h2

/-! ## The retention sweep -/

theorem logFileOf_name (e : DirEntry) (f : FileInfo) (h : logFileOf e = some f) :
    f.name = e.name := by
  unfold logFileOf DirEntry.Info at h
  split at h
  · split at h
    · rename_i info hinfo
      split at hinfo
      · exact Except.noConfusion hinfo
      · cases hinfo; cases h; rfl
    · exact Option.noConfusion h
  · exact Option.noConfusion h

theorem filterMap_logFileOf_filter (q : String → Bool) (entries : List DirEntry) :
    (entries.filter (fun e => q e.name)).filterMap logFileOf =
      (entries.filterMap logFileOf).filter (fun f => q f.name) := by
  induction entries with
  | nil => rfl
  | cons e es ih =>
    cases hlf : logFileOf e with
    | none =>
      by_cases hq : q e.name = true
      · simp [List.filter_cons, hq, List.filterMap_cons, hlf, ih]
      · simp [List.filter_cons, hq, List.filterMap_cons, hlf, ih]
    | some f =>
      have hname := logFileOf_name e f hlf
      by_cases hq : q e.name = true
      · simp [List.filter_cons, hq, List.filterMap_cons, hlf, ih, hname]
      · simp [List.filter_cons, hq, List.filterMap_cons, hlf, ih, hname]

theorem getLogFiles_ok_iff (d : LogDir) (files : List FileInfo) :
    getLogFiles d = .ok files ↔ d.readErr = none ∧ files = d.entries.filterMap logFileOf := by
  unfold getLogFiles osReadDir
  cases h : d.readErr with
  | none =>
    simp only [true_and]
    constructor
    · intro h2; cases h2; rfl
    · intro h2; rw [h2]
  | some e =>
    constructor
    · intro h2; exact Except.noConfusion h2
    · intro h2; exact Option.noConfusion h2.1

/-- When the scan and the marking succeed, the sweep issues the removals of the
marked names, and the candidates left are those no successful removal named. -/
theorem cleanupOldLogs_swept (srt : SliceSort) (lrs : LogRotationService) (now : Int)
    (rmFails : String → Bool) (d : LogDir) (files : List FileInfo) (marked : List String)
    (hfiles : getLogFiles d = .ok files)
    (hmarked : filesToDelete srt lrs now files = some marked) :
    cleanupOldLogs srt lrs now rmFails d =
        (.swept (removeMarked rmFails d.entries marked).1,
          { d with entries := (removeMarked rmFails d.entries marked).2 }) ∧
      getLogFiles { d with entries := (removeMarked rmFails d.entries marked).2 } =
        .ok (files.filter (fun f => marked.all (fun n => !(f.name == n) || rmFails n))) := by
  obtain ⟨hread, hfl⟩ := (getLogFiles_ok_iff d files).1 hfiles
  constructor
  · simp only [cleanupOldLogs, hfiles, hmarked]
  · rw [getLogFiles_ok_iff]
    refine ⟨hread, ?_⟩
    rw [removeMarked_entries, hfl]
    exact (filterMap_logFileOf_filter
      (fun nm => marked.all (fun n => !(nm == n) || rmFails n)) d.entries).symm

theorem retention_of_not_refused (srt : SliceSort) (hs : srt.Meets)
    (lrs : LogRotationService) (now : Int) (rmFails : String → Bool)
    (files : List FileInfo) (marked : List String) (hmax : 0 ≤ lrs.maxFiles)
    (hmarked : filesToDelete srt lrs now files = some marked)
    (hrm : ∀ n ∈ marked, rmFails n = false) :
    let remaining := files.filter (fun f => marked.all (fun n => !(f.name == n) || rmFails n))
    (∀ f ∈ remaining, f ∈ files) ∧ (remaining.length : Int) ≤ lrs.maxFiles ∧
      ∀ f ∈ remaining, timeSub now f.modTime ≤ lrs.maxAge := by
  intro remaining
  rw [filesToDelete_eq srt hs lrs now files hmax] at hmarked
  have hmk := (Option.some.inj hmarked).symm
  have hkeep : ∀ f ∈ remaining, f.name ∉ marked := by
    intro f hf hmem
    have h2 := (List.mem_filter.1 hf).2
    rw [List.all_eq_true] at h2
    have h3 := h2 f.name hmem
    rw [hrm _ hmem] at h3
    simp at h3
  refine ⟨fun f hf => (List.mem_filter.1 hf).1, ?_, ?_⟩
  · by_cases hgt : (files.length : Int) > lrs.maxFiles
    · set sorted := srt FileInfo (fun a b => decide (a.modTime < b.modTime)) files with hsorted
      have hperm : sorted.Perm files := (hs FileInfo _ files).1
      set k := ((files.length : Int) - lrs.maxFiles).toNat with hk
      set p : FileInfo → Bool :=
        fun f => marked.all (fun n => !(f.name == n) || rmFails n) with hp
      have hlen : remaining.length = (sorted.filter p).length :=
        ((hperm.filter p).length_eq).symm
      have hsplit : sorted.filter p = (sorted.take k).filter p ++ (sorted.drop k).filter p := by
        rw [← List.filter_append, List.take_append_drop]
      have htake : (sorted.take k).filter p = [] := by
        rw [List.filter_eq_nil_iff]
        intro f hf hpf
        have hfs : f ∈ remaining :=
          List.mem_filter.2 ⟨hperm.mem_iff.1 (List.mem_of_mem_take hf), hpf⟩
        apply hkeep f hfs
        rw [hmk, if_pos hgt]
        exact List.mem_append_right _ (List.mem_map_of_mem _ hf)
      have hdrop : ((sorted.drop k).filter p).length ≤ sorted.length - k :=
        (List.length_filter_le _ _).trans (by simp)
      have hsl : sorted.length = files.length := hperm.length_eq
      rw [hlen, hsplit, htake, List.nil_append]
      omega
    · have : remaining.length ≤ files.length := List.length_filter_le _ _
      omega
  · intro f hf
    by_contra hcon
    apply hkeep f hf
    rw [hmk]
    refine List.mem_append_left _ ?_
    unfold ageMarked
    refine List.mem_map_of_mem _ (List.mem_filter.2 ⟨(List.mem_filter.1 hf).1, ?_⟩)
    simp only [decide_eq_true_eq]
    omega

/-- C1: for every list of candidate log files, every current time and every policy
with `maxFiles ≥ 0`, `cleanupOldLogs` runs to its end, and if every file removal
it issues succeeds (or fails only because the file is already gone, the
filesystem refusing none), the candidates that remain number at most `maxFiles`
and each has age `now - modTime ≤ maxAge`. -/
theorem cleanupOldLogs_retention (srt : SliceSort) (hs : srt.Meets)
    (lrs : LogRotationService) (now : Int) (rmFails : String → Bool) (d : LogDir)
    (files : List FileInfo) (hfiles : getLogFiles d = .ok files)
    (hmax : 0 ≤ lrs.maxFiles) :
    ∃ attempts dirAfter,
      cleanupOldLogs srt lrs now rmFails d = (.swept attempts, dirAfter) ∧
      ((∀ a ∈ attempts, a.2 = true ∨ rmFails a.1 = false) →
        ∃ remaining, getLogFiles dirAfter = .ok remaining ∧
          (∀ f ∈ remaining, f ∈ files) ∧
          (remaining.length : Int) ≤ lrs.maxFiles ∧
          ∀ f ∈ remaining, timeSub now f.modTime ≤ lrs.maxAge) := by
  have hmarked := filesToDelete_eq srt hs lrs now files hmax
  obtain ⟨hrun, hafter⟩ := cleanupOldLogs_swept srt lrs now rmFails d files _ hfiles hmarked
  refine ⟨_, _, hrun, ?_⟩
  intro hok
  have hrm := removeMarked_not_refused rmFails _ d.entries hok
  exact ⟨_, hafter, retention_of_not_refused srt hs lrs now rmFails files _ hmax hmarked hrm⟩

theorem cleanupOldLogs_retention_witness :
    SliceSort.Meets insertionSorter ∧ getLogFiles sampleDir = .ok sampleFiles ∧
    (0 : Int) ≤ (NewLogRotationService "logs" 2 1000).maxFiles ∧
    ∃ attempts dirAfter,
      cleanupOldLogs insertionSorter (NewLogRotationService "logs" 2 1000) 100
        (fun _ => false) sampleDir = (.swept attempts, dirAfter) ∧
      (∀ a ∈ attempts, a.2 = true) ∧
      ∃ remaining, getLogFiles dirAfter = .ok remaining ∧
        (∀ f ∈ remaining, f ∈ sampleFiles) ∧
        (remaining.length : Int) ≤ (NewLogRotationService "logs" 2 1000).maxFiles ∧
        ∀ f ∈ remaining,
          timeSub 100 f.modTime ≤ (NewLogRotationService "logs" 2 1000).maxAge := by
  refine ⟨insertionSorter_meets, rfl, by decide, ?_⟩
  obtain ⟨attempts, dirAfter, hrun, hpost⟩ :=
    cleanupOldLogs_retention insertionSorter insertionSorter_meets
      (NewLogRotationService "logs" 2 1000) 100 (fun _ => false) sampleDir sampleFiles
      rfl (by decide)
  have hval : cleanupOldLogs insertionSorter (NewLogRotationService "logs" 2 1000) 100
      (fun _ => false) sampleDir =
      (.swept [("pawtroli_2024-01-01.log", true)], ⟨none, [sampleJan2, sampleJan3]⟩) := by
    decide
  have hpair := hrun.symm.trans hval
  have hatt : attempts = [("pawtroli_2024-01-01.log", true)] := by
    have := congrArg Prod.fst hpair
    simpa using this
  refine ⟨attempts, dirAfter, hrun, ?_, ?_⟩
  · rw [hatt]; decide
  · apply hpost
    rw [hatt]; decide

/-! ## The deletion set -/

/-- C2, as stated, fails: with three candidates of which only the oldest is past
`maxAge`, and `maxFiles = 2`, the specification selects the oldest by age and the
second oldest by count, while `cleanupOldLogs` marks the oldest file twice and no
other. -/
theorem filesToDelete_not_spec_union :
    filesToDelete insertionSorter (NewLogRotationService "logs" 2 70) 100 sampleFiles =
        some ["pawtroli_2024-01-01.log", "pawtroli_2024-01-01.log"] ∧
      specDeletionSet (NewLogRotationService "logs" 2 70) 100 sampleFiles =
        ["pawtroli_2024-01-01.log", "pawtroli_2024-01-02.log"] ∧
      ¬ (∀ n, n ∈ ["pawtroli_2024-01-01.log", "pawtroli_2024-01-01.log"] ↔
          n ∈ specDeletionSet (NewLogRotationService "logs" 2 70) 100 sampleFiles) ∧
      ¬ ["pawtroli_2024-01-01.log", "pawtroli_2024-01-01.log"].Nodup := by
  refine ⟨by decide, by decide, ?_, by decide⟩
  intro h
  have h2 := (h "pawtroli_2024-01-02.log").2 (by decide)
  revert h2
  decide

/-- C2, amended: for every candidate list, current time and policy with
`maxFiles ≥ 0`, a file is marked for deletion by `cleanupOldLogs` exactly when its
age exceeds `maxAge`, or the candidate count exceeds `maxFiles` and it is among
the first `count - maxFiles` of all candidates sorted oldest first (whether or not
its age exceeds `maxAge`). -/
theorem filesToDelete_union (srt : SliceSort) (hs : srt.Meets) (lrs : LogRotationService)
    (now : Int) (files : List FileInfo) (hmax : 0 ≤ lrs.maxFiles) :
    ∃ marked sorted,
      filesToDelete srt lrs now files = some marked ∧
      sorted = srt FileInfo (fun a b => decide (a.modTime < b.modTime)) files ∧
      sorted.Perm files ∧ sorted.Pairwise (fun a b => a.modTime ≤ b.modTime) ∧
      ∀ n, n ∈ marked ↔
        (∃ f ∈ files, f.name = n ∧ timeSub now f.modTime > lrs.maxAge) ∨
        ((files.length : Int) > lrs.maxFiles ∧
          ∃ f ∈ sorted.take ((files.length : Int) - lrs.maxFiles).toNat, f.name = n) := by
  refine ⟨_, _, filesToDelete_eq srt hs lrs now files hmax, rfl, (hs FileInfo _ files).1,
    sorted_oldest_first srt hs files, ?_⟩
  intro n
  simp only [List.mem_append, ageMarked, List.mem_map, List.mem_filter, decide_eq_true_eq]
  constructor
  · rintro (⟨f, ⟨hf, hage⟩, hn⟩ | h)
    · exact Or.inl ⟨f, hf, hn, hage⟩
    · right
      split at h
      · rename_i hgt
        obtain ⟨f, hf, hn⟩ := List.mem_map.1 h
        exact ⟨hgt, f, hf, hn⟩
      · simp at h
  · rintro (⟨f, hf, hn, hage⟩ | ⟨hgt, f, hf, hn⟩)
    · exact Or.inl ⟨f, ⟨hf, hage⟩, hn⟩
    · right
      rw [if_pos hgt]
      exact List.mem_map.2 ⟨f, hf, hn⟩

theorem filesToDelete_union_witness :
    SliceSort.Meets insertionSorter ∧
    (0 : Int) ≤ (NewLogRotationService "logs" 2 70).maxFiles ∧
    ∃ marked sorted,
      filesToDelete insertionSorter (NewLogRotationService "logs" 2 70) 100 sampleFiles =
        some marked ∧
      sorted = insertionSorter FileInfo (fun a b => decide (a.modTime < b.modTime))
        sampleFiles ∧
      sorted.Perm sampleFiles ∧ sorted.Pairwise (fun a b => a.modTime ≤ b.modTime) ∧
      ∀ n, n ∈ marked ↔
        (∃ f ∈ sampleFiles, f.name = n ∧
          timeSub 100 f.modTime > (NewLogRotationService "logs" 2 70).maxAge) ∨
        ((sampleFiles.length : Int) > (NewLogRotationService "logs" 2 70).maxFiles ∧
          ∃ f ∈ sorted.take
            ((sampleFiles.length : Int) - (NewLogRotationService "logs" 2 70).maxFiles).toNat,
            f.name = n) :=
  ⟨insertionSorter_meets, by decide,
    filesToDelete_union insertionSorter insertionSorter_meets
      (NewLogRotationService "logs" 2 70) 100 sampleFiles (by decide)⟩

/-! ## The count-based eviction -/

theorem charsLe_total : ∀ a b : List Char, charsLe a b = true ∨ charsLe b a = true := by
  intro a
  induction a with
  | nil => intro b; left; cases b <;> rfl
  | cons x xs ih =>
    intro b
    cases b with
    | nil => right; rfl
    | cons y ys =>
      simp only [charsLe]
      by_cases h1 : x.toNat < y.toNat
      · left; simp [h1]
      · by_cases h2 : y.toNat < x.toNat
        · right; simp [h2]
        · simp only [h1, h2, if_false]
          exact ih ys

theorem charsLe_trans : ∀ a b c : List Char,
    charsLe a b = true → charsLe b c = true → charsLe a c = true := by
  intro a
  induction a with
  | nil => intro b c _ _; cases c <;> rfl
  | cons x xs ih =>
    intro b c hab hbc
    cases b with
    | nil => simp [charsLe] at hab
    | cons y ys =>
      cases c with
      | nil => simp [charsLe] at hbc
      | cons z zs =>
        simp only [charsLe] at hab hbc ⊢
        by_cases h1 : x.toNat < y.toNat
        · by_cases h3 : y.toNat < z.toNat
          · have : x.toNat < z.toNat := by omega
            simp [this]
          · by_cases h4 : z.toNat < y.toNat
            · simp [h3, h4] at hbc
            · have : x.toNat < z.toNat := by omega
              simp [this]
        · by_cases h2 : y.toNat < x.toNat
          · simp [h1, h2] at hab
          · simp only [h1, h2, if_false] at hab
            by_cases h3 : y.toNat < z.toNat
            · have : x.toNat < z.toNat := by omega
              simp [this]
            · by_cases h4 : z.toNat < y.toNat
              · simp [h3, h4] at hbc
              · simp only [h3, h4, if_false] at hbc
                have h5 : ¬ x.toNat < z.toNat := by omega
                have h6 : ¬ z.toNat < x.toNat := by omega
                simp only [h5, h6, if_false]
                exact ih ys zs hab hbc

theorem evictionBefore_total (a b : FileInfo) :
    evictionBefore a b = true ∨ evictionBefore b a = true := by
  unfold evictionBefore
  rcases lt_trichotomy a.modTime b.modTime with h | h | h
  · left; simp [h]
  · rcases charsLe_total a.name.data b.name.data with hc | hc
    · left; simp [h, hc]
    · right; simp [h, hc]
  · right; simp [h]

theorem evictionBefore_trans (a b c : FileInfo) (hab : evictionBefore a b = true)
    (hbc : evictionBefore b c = true) : evictionBefore a c = true := by
  unfold evictionBefore at *
  simp only [Bool.or_eq_true, Bool.and_eq_true, decide_eq_true_eq] at *
  rcases hab with h1 | ⟨h1, c1⟩
  · rcases hbc with h2 | ⟨h2, _⟩
    · left; omega
    · left; omega
  · rcases hbc with h2 | ⟨h2, c2⟩
    · left; omega
    · right; exact ⟨by omega, charsLe_trans _ _ _ c1 c2⟩

theorem evictionBefore_le (a b : FileInfo) (h : evictionBefore a b = true) :
    a.modTime ≤ b.modTime := by
  unfold evictionBefore at h
  simp only [Bool.or_eq_true, Bool.and_eq_true, decide_eq_true_eq] at h
  rcases h with h | ⟨h, _⟩ <;> omega

theorem specEvictionOrder_perm (files : List FileInfo) :
    (specEvictionOrder files).Perm files :=
  List.perm_insertionSort _ files

theorem specEvictionOrder_sorted (files : List FileInfo) :
    (specEvictionOrder files).Pairwise (fun a b => a.modTime ≤ b.modTime) := by
  haveI : IsTotal FileInfo (fun a b => evictionBefore a b = true) := ⟨evictionBefore_total⟩
  haveI : IsTrans FileInfo (fun a b => evictionBefore a b = true) := ⟨evictionBefore_trans⟩
  have h := List.sorted_insertionSort (fun a b => evictionBefore a b = true) files
  exact List.Pairwise.imp (fun {a b} hab => evictionBefore_le a b hab) h

/-- Two arrangements of the same files, both oldest first, are equal when no two
files share a modification time. -/
theorem oldest_first_unique (l1 l2 files : List FileInfo)
    (hnd : (files.map (·.modTime)).Nodup)
    (hp1 : l1.Perm files) (hp2 : l2.Perm files)
    (hs1 : l1.Pairwise (fun a b => a.modTime ≤ b.modTime))
    (hs2 : l2.Pairwise (fun a b => a.modTime ≤ b.modTime)) : l1 = l2 := by
  have strict : ∀ l : List FileInfo, l.Perm files →
      l.Pairwise (fun a b => a.modTime ≤ b.modTime) →
      l.Pairwise (fun a b => a.modTime < b.modTime) := by
    intro l hp hsrt
    have hnd2 : (l.map (·.modTime)).Nodup := ((hp.map _).nodup_iff).2 hnd
    have hne : l.Pairwise (fun a b => a.modTime ≠ b.modTime) := by
      have := List.pairwise_map.1 hnd2
      exact this
    refine (hsrt.and hne).imp ?_
    intro a b hab
    exact lt_of_le_of_ne hab.1 hab.2
  haveI : IsAntisymm FileInfo (fun a b => a.modTime < b.modTime) :=
    ⟨fun a b h1 h2 => absurd h1 (not_lt.2 (le_of_lt h2))⟩
  exact List.eq_of_perm_of_sorted (hp1.trans hp2.symm) (strict l1 hp1 hs1) (strict l2 hp2 hs2)

theorem ageMarked_nil (lrs : LogRotationService) (now : Int) (files : List FileInfo)
    (hyoung : ∀ f ∈ files, timeSub now f.modTime ≤ lrs.maxAge) :
    ageMarked lrs now files = [] := by
  unfold ageMarked
  rw [List.map_eq_nil_iff, List.filter_eq_nil_iff]
  intro f hf
  have := hyoung f hf
  simp only [decide_eq_true_eq]
  omega

/-- C3, amended: for every candidate list of `n` files that are all younger than
`maxAge` and every `maxFiles` with `0 ≤ maxFiles < n`, `cleanupOldLogs` passes to
removal exactly the `n - maxFiles` files that come first in the oldest-first sort
of the candidates, so no deleted file is newer than a kept one; when no two
candidates share a modification time these are the first `n - maxFiles` in the
order by modification time then name, whatever the order of the listing. -/
theorem count_eviction_oldest (srt : SliceSort) (hs : srt.Meets)
    (lrs : LogRotationService) (now : Int) (files : List FileInfo)
    (hyoung : ∀ f ∈ files, timeSub now f.modTime ≤ lrs.maxAge)
    (hmax : 0 ≤ lrs.maxFiles) (hlt : lrs.maxFiles < files.length) :
    ∃ marked sorted,
      filesToDelete srt lrs now files = some marked ∧
      sorted = srt FileInfo (fun a b => decide (a.modTime < b.modTime)) files ∧
      marked = (sorted.take ((files.length : Int) - lrs.maxFiles).toNat).map (·.name) ∧
      (marked.length : Int) = files.length - lrs.maxFiles ∧
      (∀ f ∈ sorted.take ((files.length : Int) - lrs.maxFiles).toNat,
        ∀ g ∈ sorted.drop ((files.length : Int) - lrs.maxFiles).toNat,
          f.modTime ≤ g.modTime) ∧
      ((files.map (·.modTime)).Nodup →
        marked = specEvicted lrs files ∧
        ∀ listing : List FileInfo, listing.Perm files →
          filesToDelete srt lrs now listing = some marked) := by
  have hperm := (hs FileInfo (fun a b => decide (a.modTime < b.modTime)) files).1
  have hsorted := sorted_oldest_first srt hs files
  have hgt : (files.length : Int) > lrs.maxFiles := hlt
  have hmarked : filesToDelete srt lrs now files =
      some (((srt FileInfo (fun a b => decide (a.modTime < b.modTime)) files).take
        ((files.length : Int) - lrs.maxFiles).toNat).map (·.name)) := by
    rw [filesToDelete_eq srt hs lrs now files hmax, ageMarked_nil lrs now files hyoung,
      if_pos hgt, List.nil_append]
  refine ⟨_, _, hmarked, rfl, rfl, ?_, ?_, ?_⟩
  · rw [List.length_map, List.length_take, hperm.length_eq]
    omega
  · intro f hf g hg
    have h := hsorted
    rw [← List.take_append_drop ((files.length : Int) - lrs.maxFiles).toNat
      (srt FileInfo (fun a b => decide (a.modTime < b.modTime)) files)] at h
    exact (List.pairwise_append.1 h).2.2 f hf g hg
  · intro hnd
    constructor
    · unfold specEvicted
      rw [oldest_first_unique _ (specEvictionOrder files) files hnd hperm
        (specEvictionOrder_perm files) hsorted (specEvictionOrder_sorted files)]
    · intro listing hl
      have hyoung2 : ∀ f ∈ listing, timeSub now f.modTime ≤ lrs.maxAge :=
        fun f hf => hyoung f (hl.mem_iff.1 hf)
      have hlen : listing.length = files.length := hl.length_eq
      have hgt2 : (listing.length : Int) > lrs.maxFiles := by omega
      have hperm2 := (hs FileInfo (fun a b => decide (a.modTime < b.modTime)) listing).1
      rw [filesToDelete_eq srt hs lrs now listing hmax, ageMarked_nil lrs now listing hyoung2,
        if_pos hgt2, List.nil_append, hlen,
        oldest_first_unique _ (srt FileInfo (fun a b => decide (a.modTime < b.modTime)) files)
          files hnd (hperm2.trans hl) hperm (sorted_oldest_first srt hs listing) hsorted]

theorem count_eviction_oldest_witness :
    SliceSort.Meets insertionSorter ∧
    (∀ f ∈ sampleFive,
      timeSub 100 f.modTime ≤ (NewLogRotationService "logs" 2 1000).maxAge) ∧
    (0 : Int) ≤ (NewLogRotationService "logs" 2 1000).maxFiles ∧
    (NewLogRotationService "logs" 2 1000).maxFiles < sampleFive.length ∧
    (sampleFive.map (·.modTime)).Nodup ∧
    filesToDelete insertionSorter (NewLogRotationService "logs" 2 1000) 100 sampleFive =
      some (specEvicted (NewLogRotationService "logs" 2 1000) sampleFive) ∧
    specEvicted (NewLogRotationService "logs" 2 1000) sampleFive =
      ["pawtroli_2024-01-01.log", "pawtroli_2024-01-02.log", "pawtroli_2024-01-03.log"] := by
  have hy : ∀ f ∈ sampleFive,
      timeSub 100 f.modTime ≤ (NewLogRotationService "logs" 2 1000).maxAge := by decide
  have hnd : (sampleFive.map (·.modTime)).Nodup := by decide
  obtain ⟨marked, sorted, hm, _, _, _, _, hspec⟩ :=
    count_eviction_oldest insertionSorter insertionSorter_meets
      (NewLogRotationService "logs" 2 1000) 100 sampleFive hy (by decide) (by decide)
  refine ⟨insertionSorter_meets, hy, by decide, by decide, hnd, ?_, by decide⟩
  rw [hm, (hspec hnd).1]

/-! ## The listing -/

theorem formatFileSize_some (size : Int) (h : size < 2 ^ 63) :
    ∃ s, formatFileSize size = some s := by
  by_cases h1 : size < 1024
  · exact ⟨fmtInt size ++ " B", by simp only [formatFileSize, if_pos h1]⟩
  · obtain ⟨k, c, _, _, _, _, _, hfmt⟩ := formatFileSize_scaled size (by omega) h
    exact ⟨_, hfmt⟩

theorem viewOf_some_iff (f : FileInfo) (v : LogFileView) :
    viewOf f = some v ↔
      v.name = f.name ∧ v.size = f.size ∧ v.modTime = f.modTime ∧
        formatFileSize f.size = some v.sizeFormatted := by
  unfold viewOf
  cases hfs : formatFileSize f.size with
  | none => simp
  | some s =>
    simp only [Option.map_some', Option.some.injEq]
    constructor
    · intro h; subst h; exact ⟨rfl, rfl, rfl, rfl⟩
    · rintro ⟨h1, h2, h3, h4⟩
      cases v
      simp only at h1 h2 h3 h4
      subst h1 h2 h3 h4
      rfl

theorem mapM_viewOf (files : List FileInfo) (hsize : ∀ f ∈ files, f.size < 2 ^ 63) :
    ∃ views, files.mapM viewOf = some views ∧
      List.Forall₂ (fun f v => viewOf f = some v) files views := by
  induction files with
  | nil => exact ⟨[], rfl, List.Forall₂.nil⟩
  | cons f fs ih =>
    obtain ⟨views, hv, hrel⟩ := ih (fun g hg => hsize g (List.mem_cons_of_mem _ hg))
    obtain ⟨s, hs⟩ := formatFileSize_some f.size (hsize f (List.mem_cons_self _ _))
    have hview : viewOf f = some ⟨f.name, f.size, f.modTime, s⟩ := by
      simp [viewOf, hs]
    refine ⟨_ :: views, ?_, List.Forall₂.cons hview hrel⟩
    rw [List.mapM_cons, hview, hv]
    rfl

/-- C6: for every directory state in which the scan succeeds (sizes being `int64`
values), `GetLogFilesList` returns exactly one entry per file returned by
`getLogFiles`: the entries match a rearrangement of those files one to one, each
carrying the name, size, modification time and `formatFileSize(size)` of its file,
and modification times are non-increasing from first to last. -/
theorem GetLogFilesList_newest_first (srt : SliceSort) (hs : srt.Meets) (d : LogDir)
    (files : List FileInfo) (hfiles : getLogFiles d = .ok files)
    (hsize : ∀ f ∈ files, f.size < 2 ^ 63) :
    ∃ result arranged,
      GetLogFilesList srt d = .ok result ∧
      arranged.Perm files ∧
      List.Forall₂ (fun f v => v.name = f.name ∧ v.size = f.size ∧ v.modTime = f.modTime ∧
        formatFileSize f.size = some v.sizeFormatted) arranged result ∧
      result.Pairwise (fun a b => a.modTime ≥ b.modTime) := by
  obtain ⟨views, hviews, hrel⟩ := mapM_viewOf files hsize
  have hc := hs LogFileView (fun a b => decide (a.modTime > b.modTime)) views
  have hcomp : (Relation.Comp (List.Forall₂ (fun f v => viewOf f = some v)) List.Perm)
      files (srt LogFileView (fun a b => decide (a.modTime > b.modTime)) views) :=
    ⟨views, hrel, hc.1.symm⟩
  rw [List.forall₂_comp_perm_eq_perm_comp_forall₂] at hcomp
  obtain ⟨arranged, hperm, hrel2⟩ := hcomp
  refine ⟨srt LogFileView (fun a b => decide (a.modTime > b.modTime)) views, arranged,
    ?_, hperm.symm, ?_, ?_⟩
  · simp only [GetLogFilesList, hfiles, hviews]
  · exact hrel2.imp (fun f v h => (viewOf_some_iff f v).1 h)
  · have h := hc.2 (by intro a b; simp only [decide_eq_true_eq, decide_eq_false_iff_not]; omega)
      (by intro a b c; simp only [decide_eq_true_eq]; omega)
    refine h.imp ?_
    intro a b hab
    simp only [decide_eq_false_iff_not] at hab
    omega

theorem GetLogFilesList_newest_first_witness :
    SliceSort.Meets insertionSorter ∧ getLogFiles sampleDir = .ok sampleFiles ∧
    (∀ f ∈ sampleFiles, f.size < 2 ^ 63) ∧
    ∃ result arranged,
      GetLogFilesList insertionSorter sampleDir = .ok result ∧
      arranged.Perm sampleFiles ∧
      List.Forall₂ (fun f v => v.name = f.name ∧ v.size = f.size ∧ v.modTime = f.modTime ∧
        formatFileSize f.size = some v.sizeFormatted) arranged result ∧
      result.Pairwise (fun a b => a.modTime ≥ b.modTime) :=
  ⟨insertionSorter_meets, rfl, by decide,
    GetLogFilesList_newest_first insertionSorter insertionSorter_meets sampleDir sampleFiles
      rfl (by decide)⟩

/-! ## The candidate filter -/

theorem logFileOf_some_iff (e : DirEntry) (f : FileInfo) :
    logFileOf e = some f ↔
      e.isDir = false ∧ hasPrefix e.name "pawtroli_" = true ∧
        hasSuffix e.name ".log" = true ∧ e.infoErr = false ∧
        f = ⟨e.name, e.size, e.modTime⟩ := by
  unfold logFileOf isLogFileEntry DirEntry.Info
  cases hd : e.isDir <;> cases hp : hasPrefix e.name "pawtroli_" <;>
    cases hx : hasSuffix e.name ".log" <;> cases hi : e.infoErr <;>
    simp [eq_comm]

/-- C7, as stated, fails: the files `pawtroli_backup.log` and `pawtroli_.log` do
not follow the convention prefix, underscore, date, `.log`, yet `getLogFiles`
returns both and a sweep removes them. -/
theorem getLogFiles_accepts_undated_names :
    getLogFiles sampleUndated =
        .ok [⟨"pawtroli_backup.log", 5, 0⟩, ⟨"pawtroli_.log", 5, 0⟩] ∧
      specLogFileName "pawtroli_backup.log" = false ∧
      specLogFileName "pawtroli_.log" = false ∧
      cleanupOldLogs insertionSorter (NewLogRotationService "logs" 50 10) 100
          (fun _ => false) sampleUndated =
        (.swept [("pawtroli_backup.log", true), ("pawtroli_.log", true)], ⟨none, []⟩) :=
  ⟨rfl, by decide, by decide, by decide⟩

/-- C7, amended: when the scan succeeds, `getLogFiles` includes a directory entry
if and only if it is a non-directory whose name starts with `pawtroli_` and ends
with `.log` and whose metadata can be read; every name made of the prefix
`pawtroli`, an underscore, a date `YYYY-MM-DD` and the suffix `.log` passes this
test. -/
theorem getLogFiles_filter (d : LogDir) (files : List FileInfo)
    (hfiles : getLogFiles d = .ok files) :
    (∀ f, f ∈ files ↔
      ∃ e ∈ d.entries, e.isDir = false ∧ hasPrefix e.name "pawtroli_" = true ∧
        hasSuffix e.name ".log" = true ∧ e.infoErr = false ∧
        f = ⟨e.name, e.size, e.modTime⟩) ∧
    (∀ name, specLogFileName name = true →
      hasPrefix name "pawtroli_" = true ∧ hasSuffix name ".log" = true) := by
  obtain ⟨_, hfl⟩ := (getLogFiles_ok_iff d files).1 hfiles
  constructor
  · intro f
    rw [hfl, List.mem_filterMap]
    constructor
    · rintro ⟨e, he, hlf⟩
      exact ⟨e, he, (logFileOf_some_iff e f).1 hlf⟩
    · rintro ⟨e, he, h⟩
      exact ⟨e, he, (logFileOf_some_iff e f).2 h⟩
  · intro name hname
    unfold specLogFileName at hname
    simp only [Bool.and_eq_true, beq_iff_eq] at hname
    obtain ⟨⟨hpre, _⟩, hsuf⟩ := hname
    refine ⟨hpre, ?_⟩
    unfold hasSuffix
    rw [List.isSuffixOf_iff_suffix]
    have hd : ".log".data = List.drop 19 name.data := hsuf.symm
    rw [hd]
    exact List.drop_suffix 19 name.data

theorem getLogFiles_filter_witness :
    getLogFiles sampleDir = .ok sampleFiles ∧
    (∀ f, f ∈ sampleFiles ↔
      ∃ e ∈ sampleDir.entries, e.isDir = false ∧ hasPrefix e.name "pawtroli_" = true ∧
        hasSuffix e.name ".log" = true ∧ e.infoErr = false ∧
        f = ⟨e.name, e.size, e.modTime⟩) ∧
    (∀ name, specLogFileName name = true →
      hasPrefix name "pawtroli_" = true ∧ hasSuffix name ".log" = true) ∧
    specLogFileName "pawtroli_2024-01-01.log" = true :=
  ⟨rfl, (getLogFiles_filter sampleDir sampleFiles rfl).1,
    (getLogFiles_filter sampleDir sampleFiles rfl).2, by decide⟩

/-! ## The empty listing -/

/-- C8: for every readable log directory that is empty or has no entry passing
the filter of `getLogFiles`, both `getLogFiles` and `GetLogFilesList` return an
empty sequence and no error. -/
theorem empty_listing_is_success (srt : SliceSort) (hs : srt.Meets) (d : LogDir)
    (hread : d.readErr = none)
    (hnone : d.entries = [] ∨ ∀ e ∈ d.entries, isLogFileEntry e = false) :
    getLogFiles d = .ok [] ∧ GetLogFilesList srt d = .ok [] := by
  have hnone2 : ∀ e ∈ d.entries, isLogFileEntry e = false := by
    rcases hnone with h | h
    · rw [h]; intro e he; simp at he
    · exact h
  have hfiles : getLogFiles d = .ok [] := by
    rw [getLogFiles_ok_iff]
    refine ⟨hread, ?_⟩
    symm
    rw [List.filterMap_eq_nil_iff]
    intro e he
    simp only [logFileOf, hnone2 e he, Bool.false_eq_true, if_false]
  refine ⟨hfiles, ?_⟩
  have hsort : srt LogFileView (fun a b => decide (a.modTime > b.modTime)) [] = [] :=
    List.Perm.eq_nil (hs LogFileView _ []).1
  simp only [GetLogFilesList, hfiles, List.mapM_nil, pure, hsort]

theorem empty_listing_is_success_witness :
    (getLogFiles ⟨none, []⟩ = .ok [] ∧ GetLogFilesList insertionSorter ⟨none, []⟩ = .ok []) ∧
    (getLogFiles sampleNoLogs = .ok [] ∧ GetLogFilesList insertionSorter sampleNoLogs = .ok []) :=
  ⟨empty_listing_is_success insertionSorter insertionSorter_meets ⟨none, []⟩ rfl (Or.inl rfl),
    empty_listing_is_success insertionSorter insertionSorter_meets sampleNoLogs rfl
      (Or.inr (by decide))⟩

/-! ## The name of the log file -/

theorem digitChar_ne_slash (n : Nat) (h : n < 10) : Nat.digitChar n ≠ '/' := by
  interval_cases n <;> decide

theorem toDigitsCore_no_slash (fuel : Nat) :
    ∀ (n : Nat) (ds : List Char), (∀ c ∈ ds, c ≠ '/') →
      ∀ c ∈ Nat.toDigitsCore 10 fuel n ds, c ≠ '/' := by
  induction fuel with
  | zero => intro n ds hds c hc; exact hds c (by simpa [Nat.toDigitsCore] using hc)
  | succ k ih =>
    intro n ds hds c hc
    have hcons : ∀ c ∈ Nat.digitChar (n % 10) :: ds, c ≠ '/' := by
      intro c hc
      rcases List.mem_cons.1 hc with h | h
      · rw [h]; exact digitChar_ne_slash _ (Nat.mod_lt _ (by norm_num))
      · exact hds c h
    simp only [Nat.toDigitsCore] at hc
    split at hc
    · exact hcons c hc
    · exact ih _ _ hcons c hc

theorem appendInt_no_slash (x width : Nat) : ∀ c ∈ appendInt x width, c ≠ '/' := by
  intro c hc
  unfold appendInt at hc
  rcases List.mem_append.1 hc with h | h
  · rw [(List.mem_replicate.1 h).2]; decide
  · exact toDigitsCore_no_slash _ _ [] (by simp) c h

theorem logFileNameOf_data (d : Date) :
    (logFileNameOf d).data = "pawtroli_".data ++ (d.format.data ++ ".log".data) := by
  simp [logFileNameOf, String.data_append]

theorem logFileNameOf_no_slash (d : Date) : ∀ c ∈ (logFileNameOf d).data, c ≠ '/' := by
  have hpre : ∀ c ∈ "pawtroli_".data, c ≠ '/' := by decide
  have hsuf : ∀ c ∈ ".log".data, c ≠ '/' := by decide
  have hdash : '-' ≠ '/' := by decide
  intro c hc
  rw [logFileNameOf_data] at hc
  rcases List.mem_append.1 hc with h | h
  · exact hpre c h
  · rcases List.mem_append.1 h with h2 | h2
    · simp only [Date.format, List.mem_append, List.mem_cons] at h2
      rcases h2 with (h3 | h3 | h3) | h3 | h3
      · exact appendInt_no_slash _ _ c h3
      · rw [h3]; exact hdash
      · exact appendInt_no_slash _ _ c h3
      · rw [h3]; exact hdash
      · exact appendInt_no_slash _ _ c h3
    · exact hsuf c h2

theorem takeWhile_append_stop {α : Type} (p : α → Bool) (l : List α) (x : α) (rest : List α)
    (hl : ∀ c ∈ l, p c = true) (hx : p x = false) :
    (l ++ x :: rest).takeWhile p = l := by
  induction l with
  | nil => simp [List.takeWhile, hx]
  | cons y ys ih =>
    have hy : p y = true := hl y (List.mem_cons_self _ _)
    simp only [List.cons_append, List.takeWhile_cons, hy, if_true]
    rw [ih (fun c hc => hl c (List.mem_cons_of_mem _ hc))]

theorem filepathBase_join (dir name : String) (hne : name.data ≠ [])
    (hns : ∀ c ∈ name.data, c ≠ '/') :
    filepathBase (filepathJoin dir name) = name := by
  have hdata : (filepathJoin dir name).data = dir.data ++ '/' :: name.data := by
    simp [filepathJoin, String.data_append]
  have hnotEmpty : filepathJoin dir name ≠ "" := by
    intro h
    have := congrArg String.data h
    rw [hdata] at this
    simp at this
  have hrev : (filepathJoin dir name).data.reverse = name.data.reverse ++ '/' :: dir.data.reverse := by
    rw [hdata]; simp
  obtain ⟨z, zs, hz⟩ : ∃ z zs, name.data.reverse = z :: zs := by
    cases h : name.data.reverse with
    | nil => exact absurd (List.reverse_eq_nil_iff.1 h) hne
    | cons z zs => exact ⟨z, zs, rfl⟩
  have hzmem : z ∈ name.data := by
    have : z ∈ name.data.reverse := by rw [hz]; exact List.mem_cons_self _ _
    exact List.mem_reverse.1 this
  have hzns : (z == '/') = false := by simpa using hns z hzmem
  have hdrop : (filepathJoin dir name).data.reverse.dropWhile (fun c => c == '/') =
      name.data.reverse ++ '/' :: dir.data.reverse := by
    rw [hrev, hz]
    simp only [List.cons_append, List.dropWhile_cons, hzns]
    rfl
  have htake : (name.data.reverse ++ '/' :: dir.data.reverse).takeWhile
      (fun c => !(c == '/')) = name.data.reverse := by
    apply takeWhile_append_stop
    · intro c hc
      have := hns c (List.mem_reverse.1 hc)
      simpa using this
    · simp
  unfold filepathBase
  rw [if_neg hnotEmpty]
  simp only [hdrop, htake, List.reverse_reverse, if_neg hne]

theorem filepathBase_logFilePath (d : Date) :
    filepathBase (filepathJoin "logs" (logFileNameOf d)) = logFileNameOf d := by
  apply filepathBase_join _ _ _ (logFileNameOf_no_slash d)
  rw [logFileNameOf_data]
  simp

/-! ## The rotation -/

theorem RotateLogFile_noop (env : LogEnv) (today nowInit : Date) (s : LoggerState)
    (f : OsFile) (hf : s.logFile = some f)
    (hname : filepathBase f.name = logFileNameOf today) :
    RotateLogFile env today nowInit s = (.ok (), s, []) := by
  simp [RotateLogFile, hf, hname]

theorem RotateLogFile_rotates (env : LogEnv) (today nowInit : Date) (s : LoggerState)
    (f : OsFile) (hf : s.logFile = some f)
    (hname : filepathBase f.name ≠ logFileNameOf today) :
    RotateLogFile env today nowInit s =
      ((InitLogger env nowInit { s with logFile := some { f with closed := true } }).1,
        (InitLogger env nowInit { s with logFile := some { f with closed := true } }).2.1,
        LogInfo s "Rotating log file..." ++ [.closeFile f.name] ++
          (InitLogger env nowInit { s with logFile := some { f with closed := true } }).2.2) := by
  have hne : (logFileNameOf today != filepathBase f.name) = true := by
    simp only [bne_iff_ne, ne_eq]
    exact fun h => hname h.symm
  simp only [RotateLogFile, hf, hne, if_true, CloseLogger]

theorem InitLogger_opens_once (env : LogEnv) (now : Date) (s : LoggerState) :
    ((InitLogger env now s).2.2.filter LogEvent.isOpen).length ≤ 1 := by
  unfold InitLogger
  cases env.mkdirErr <;> cases env.openErr <;> simp [LogEvent.isOpen]

theorem LogInfo_opens_nothing (s : LoggerState) (msg : String) :
    (LogInfo s msg).filter LogEvent.isOpen = [] := by
  unfold LogInfo
  cases s.loggers <;> simp [LogEvent.isOpen]

/-- C9: for every logger state whose active handle has the base file name
`pawtroli_<today>.log`, `RotateLogFile` returns success, opens no file, closes
nothing and leaves the logger state unchanged; so after a successful first call,
in which at most one file is opened, a second call on the same calendar day
does nothing. -/
theorem RotateLogFile_same_day :
    (∀ (env : LogEnv) (today nowInit : Date) (s : LoggerState) (f : OsFile),
      s.logFile = some f → filepathBase f.name = logFileNameOf today →
      RotateLogFile env today nowInit s = (.ok (), s, [])) ∧
    (∀ (env1 env2 : LogEnv) (today nowInit2 : Date) (s s1 : LoggerState)
      (ev1 : List LogEvent),
      RotateLogFile env1 today today s = (.ok (), s1, ev1) →
      RotateLogFile env2 today nowInit2 s1 = (.ok (), s1, []) ∧
        (ev1.filter LogEvent.isOpen).length ≤ 1) := by
  refine ⟨RotateLogFile_noop, ?_⟩
  intro env1 env2 today nowInit2 s s1 ev1 hfirst
  cases hlf : s.logFile with
  | none =>
    simp [RotateLogFile, hlf] at hfirst
  | some f =>
    by_cases hname : filepathBase f.name = logFileNameOf today
    · rw [RotateLogFile_noop env1 today today s f hlf hname] at hfirst
      simp only [Prod.mk.injEq, true_and] at hfirst
      obtain ⟨hs, hev⟩ := hfirst
      subst hs hev
      exact ⟨RotateLogFile_noop env2 today nowInit2 s f hlf hname, by simp⟩
    · rw [RotateLogFile_rotates env1 today today s f hlf hname] at hfirst
      simp only [Prod.mk.injEq] at hfirst
      obtain ⟨hres, hs, hev⟩ := hfirst
      constructor
      · have hhandle : s1.logFile = some ⟨filepathJoin "logs" (logFileNameOf today), false⟩ := by
          rw [← hs]
          unfold InitLogger at hres ⊢
          cases hm : env1.mkdirErr with
          | some e => simp [hm] at hres
          | none =>
            cases ho : env1.openErr with
            | some e => simp [hm, ho] at hres
            | none => simp
        exact RotateLogFile_noop env2 today nowInit2 s1 _ hhandle
          (filepathBase_logFilePath today)
      · rw [← hev]
        simp only [List.filter_append, List.length_append, LogInfo_opens_nothing]
        have := InitLogger_opens_once env1 today
          { s with logFile := some { f with closed := true } }
        simpa [LogEvent.isOpen] using this

theorem RotateLogFile_same_day_witness :
    sampleLogger.logFile = some ⟨"logs/pawtroli_2024-01-01.log", false⟩ ∧
    filepathBase "logs/pawtroli_2024-01-01.log" = logFileNameOf ⟨2024, 1, 1⟩ ∧
    RotateLogFile ⟨none, none⟩ ⟨2024, 1, 1⟩ ⟨2024, 1, 1⟩ sampleLogger =
      (.ok (), sampleLogger, []) ∧
    RotateLogFile ⟨none, none⟩ ⟨2024, 1, 2⟩ ⟨2024, 1, 2⟩ sampleLogger =
      (.ok (), ⟨some ⟨"logs/pawtroli_2024-01-02.log", false⟩,
          some "logs/pawtroli_2024-01-02.log"⟩,
        [.logInfo "Rotating log file...", .closeFile "logs/pawtroli_2024-01-01.log",
          .mkdirAll "logs", .openFile "logs/pawtroli_2024-01-02.log",
          .logInfo "Logger initialized successfully"]) ∧
    RotateLogFile ⟨none, none⟩ ⟨2024, 1, 2⟩ ⟨2024, 1, 2⟩
        ⟨some ⟨"logs/pawtroli_2024-01-02.log", false⟩, some "logs/pawtroli_2024-01-02.log"⟩ =
      (.ok (), ⟨some ⟨"logs/pawtroli_2024-01-02.log", false⟩,
          some "logs/pawtroli_2024-01-02.log"⟩, []) :=
  ⟨rfl, by decide,
    RotateLogFile_same_day.1 ⟨none, none⟩ ⟨2024, 1, 1⟩ ⟨2024, 1, 1⟩ sampleLogger _ rfl
      (by decide),
    by decide,
    (RotateLogFile_same_day.2 ⟨none, none⟩ ⟨none, none⟩ ⟨2024, 1, 2⟩ ⟨2024, 1, 2⟩
      sampleLogger
      ⟨some ⟨"logs/pawtroli_2024-01-02.log", false⟩, some "logs/pawtroli_2024-01-02.log"⟩
      [.logInfo "Rotating log file...", .closeFile "logs/pawtroli_2024-01-01.log",
        .mkdirAll "logs", .openFile "logs/pawtroli_2024-01-02.log",
        .logInfo "Logger initialized successfully"] (by decide)).1⟩

/-- C10: for every logger state with a handle whose base file name differs
from `pawtroli_<today>.log`, `RotateLogFile` closes the old handle and then runs
`InitLogger` (both clock readings falling on the same day); when directory
creation and file open succeed the new handle is `logs/pawtroli_<today>.log` and
the result is success, and when either fails the result is the error of
`InitLogger`. -/
theorem RotateLogFile_day_change (env : LogEnv) (today nowInit : Date) (s : LoggerState)
    (f : OsFile) (hf : s.logFile = some f)
    (hname : filepathBase f.name ≠ logFileNameOf today) (hday : nowInit = today) :
    RotateLogFile env today nowInit s =
      ((InitLogger env today { s with logFile := some { f with closed := true } }).1,
        (InitLogger env today { s with logFile := some { f with closed := true } }).2.1,
        LogInfo s "Rotating log file..." ++ [.closeFile f.name] ++
          (InitLogger env today { s with logFile := some { f with closed := true } }).2.2) ∧
    (env.mkdirErr = none → env.openErr = none →
      (RotateLogFile env today nowInit s).1 = .ok () ∧
      (RotateLogFile env today nowInit s).2.1.logFile =
        some ⟨filepathJoin "logs" (logFileNameOf today), false⟩ ∧
      filepathBase (filepathJoin "logs" (logFileNameOf today)) = logFileNameOf today) ∧
    (∀ e, env.mkdirErr = some e →
      (RotateLogFile env today nowInit s).1 =
        .error ("failed to create log directory: " ++ e)) ∧
    (∀ e, env.mkdirErr = none → env.openErr = some e →
      (RotateLogFile env today nowInit s).1 = .error ("failed to open log file: " ++ e)) := by
  subst hday
  have hrot := RotateLogFile_rotates env nowInit nowInit s f hf hname
  refine ⟨hrot, ?_, ?_, ?_⟩
  · intro hm ho
    rw [hrot]
    refine ⟨?_, ?_, filepathBase_logFilePath nowInit⟩ <;> simp [InitLogger, hm, ho]
  · intro e hm
    rw [hrot]
    simp only [InitLogger, hm]
  · intro e hm ho
    rw [hrot]
    simp only [InitLogger, hm, ho]

theorem RotateLogFile_day_change_witness :
    sampleLogger.logFile = some ⟨"logs/pawtroli_2024-01-01.log", false⟩ ∧
    filepathBase "logs/pawtroli_2024-01-01.log" ≠ logFileNameOf ⟨2024, 1, 2⟩ ∧
    (RotateLogFile ⟨none, none⟩ ⟨2024, 1, 2⟩ ⟨2024, 1, 2⟩ sampleLogger).1 = .ok () ∧
    (RotateLogFile ⟨none, none⟩ ⟨2024, 1, 2⟩ ⟨2024, 1, 2⟩ sampleLogger).2.1.logFile =
      some ⟨filepathJoin "logs" (logFileNameOf ⟨2024, 1, 2⟩), false⟩ ∧
    filepathJoin "logs" (logFileNameOf ⟨2024, 1, 2⟩) = "logs/pawtroli_2024-01-02.log" ∧
    (RotateLogFile ⟨none, some "permission denied"⟩ ⟨2024, 1, 2⟩ ⟨2024, 1, 2⟩ sampleLogger).1 =
      .error "failed to open log file: permission denied" := by
  have h1 := RotateLogFile_day_change ⟨none, none⟩ ⟨2024, 1, 2⟩ ⟨2024, 1, 2⟩ sampleLogger
    ⟨"logs/pawtroli_2024-01-01.log", false⟩ rfl (by decide) rfl
  have h2 := RotateLogFile_day_change ⟨none, some "permission denied"⟩ ⟨2024, 1, 2⟩
    ⟨2024, 1, 2⟩ sampleLogger ⟨"logs/pawtroli_2024-01-01.log", false⟩ rfl (by decide) rfl
  exact ⟨rfl, by decide, (h1.2.1 rfl rfl).1, (h1.2.1 rfl rfl).2.1, by decide,
    h2.2.2.2 "permission denied" rfl rfl⟩

/-! ## A negative `maxFiles` -/

/-- With `maxFiles = -1` the count-based loop of `cleanupOldLogs` asks for
`files[len(files)]`: the sweep panics, even on an empty directory. -/
theorem cleanupOldLogs_negative_maxFiles :
    cleanupOldLogs insertionSorter (NewLogRotationService "logs" (-1) 1000) 100
        (fun _ => false) ⟨none, []⟩ = (.panicked, ⟨none, []⟩) ∧
      cleanupOldLogs insertionSorter (NewLogRotationService "logs" (-1) 1000) 100
        (fun _ => false) sampleDir = (.panicked, sampleDir) := by
  constructor <;> decide

/-! ## Best-effort deletion -/

/-- C13: for every deletion set computed by `cleanupOldLogs` and every assignment
of refusals to the files, a removal is attempted for every name of the deletion
set, in order, and every file whose removal succeeds is gone from the directory
afterwards, whatever happened to the other removals. -/
theorem cleanupOldLogs_best_effort (srt : SliceSort) (lrs : LogRotationService) (now : Int)
    (rmFails : String → Bool) (d : LogDir) (files : List FileInfo) (marked : List String)
    (hfiles : getLogFiles d = .ok files)
    (hmarked : filesToDelete srt lrs now files = some marked) :
    ∃ attempts dirAfter,
      cleanupOldLogs srt lrs now rmFails d = (.swept attempts, dirAfter) ∧
      attempts.map (·.1) = marked ∧
      (∀ n, (n, true) ∈ attempts → ∀ e ∈ dirAfter.entries, e.name ≠ n) ∧
      (∀ e ∈ dirAfter.entries, e ∈ d.entries) := by
  obtain ⟨hrun, _⟩ := cleanupOldLogs_swept srt lrs now rmFails d files marked hfiles hmarked
  refine ⟨_, _, hrun, removeMarked_names rmFails marked d.entries, ?_, ?_⟩
  · intro n hn e he hname
    have hrf := removeMarked_ok_not_refused rmFails marked d.entries n hn
    have hmem : n ∈ marked := by
      rw [← removeMarked_names rmFails marked d.entries]
      exact List.mem_map.2 ⟨(n, true), hn, rfl⟩
    simp only [removeMarked_entries] at he
    have hall := (List.mem_filter.1 he).2
    rw [List.all_eq_true] at hall
    have h := hall n hmem
    rw [hrf, hname] at h
    simp at h
  · intro e he
    simp only [removeMarked_entries] at he
    exact (List.mem_filter.1 he).1

theorem cleanupOldLogs_best_effort_witness :
    getLogFiles sampleDir = .ok sampleFiles ∧
    filesToDelete insertionSorter (NewLogRotationService "logs" 1 1000) 100 sampleFiles =
      some ["pawtroli_2024-01-01.log", "pawtroli_2024-01-02.log"] ∧
    cleanupOldLogs insertionSorter (NewLogRotationService "logs" 1 1000) 100
        (fun n => n == "pawtroli_2024-01-01.log") sampleDir =
      (.swept [("pawtroli_2024-01-01.log", false), ("pawtroli_2024-01-02.log", true)],
        ⟨none, [sampleJan1, sampleJan3]⟩) ∧
    ∃ attempts dirAfter,
      cleanupOldLogs insertionSorter (NewLogRotationService "logs" 1 1000) 100
        (fun n => n == "pawtroli_2024-01-01.log") sampleDir = (.swept attempts, dirAfter) ∧
      attempts.map (·.1) = ["pawtroli_2024-01-01.log", "pawtroli_2024-01-02.log"] ∧
      (∀ n, (n, true) ∈ attempts → ∀ e ∈ dirAfter.entries, e.name ≠ n) ∧
      (∀ e ∈ dirAfter.entries, e ∈ sampleDir.entries) :=
  ⟨rfl, by decide, by decide,
    cleanupOldLogs_best_effort insertionSorter (NewLogRotationService "logs" 1 1000) 100
      (fun n => n == "pawtroli_2024-01-01.log") sampleDir sampleFiles
      ["pawtroli_2024-01-01.log", "pawtroli_2024-01-02.log"] rfl (by decide)⟩

/-! ## What the sweep removes -/

/-- C17: for every directory state, current time and policy with `maxFiles ≥ 0`,
every name `cleanupOldLogs` passes to removal is the name of a candidate returned
by `getLogFiles` that is older than `maxAge` or, the count exceeding `maxFiles`,
among the first `count - maxFiles` of the oldest-first sort; every entry no removal
names stays, and no entry appears. When the count is at most `maxFiles` and no
candidate is older than `maxAge`, or when the directory read fails, nothing is
removed. -/
theorem cleanupOldLogs_removes_only_marked (srt : SliceSort) (hs : srt.Meets)
    (lrs : LogRotationService) (now : Int) (rmFails : String → Bool) (d : LogDir)
    (hmax : 0 ≤ lrs.maxFiles) :
    (∀ err, getLogFiles d = .error err →
      cleanupOldLogs srt lrs now rmFails d = (.readFailed err, d)) ∧
    (∀ files, getLogFiles d = .ok files →
      ∃ attempts dirAfter,
        cleanupOldLogs srt lrs now rmFails d = (.swept attempts, dirAfter) ∧
        (∀ a ∈ attempts, ∃ f ∈ files, f.name = a.1 ∧
          (timeSub now f.modTime > lrs.maxAge ∨
            ((files.length : Int) > lrs.maxFiles ∧
              f ∈ (srt FileInfo (fun a b => decide (a.modTime < b.modTime)) files).take
                ((files.length : Int) - lrs.maxFiles).toNat))) ∧
        (∀ e ∈ d.entries, (∀ a ∈ attempts, a.1 ≠ e.name) → e ∈ dirAfter.entries) ∧
        (∀ e ∈ dirAfter.entries, e ∈ d.entries) ∧
        ((files.length : Int) ≤ lrs.maxFiles →
          (∀ f ∈ files, timeSub now f.modTime ≤ lrs.maxAge) →
          attempts = [] ∧ dirAfter = d)) := by
  constructor
  · intro err herr
    simp only [cleanupOldLogs, herr]
  · intro files hfiles
    have hmarked := filesToDelete_eq srt hs lrs now files hmax
    generalize hm : ageMarked lrs now files ++
        (if (files.length : Int) > lrs.maxFiles then
          ((srt FileInfo (fun a b => decide (a.modTime < b.modTime)) files).take
            ((files.length : Int) - lrs.maxFiles).toNat).map (·.name)
        else []) = marked at hmarked
    obtain ⟨hrun, _⟩ := cleanupOldLogs_swept srt lrs now rmFails d files marked hfiles hmarked
    have hperm := (hs FileInfo (fun a b => decide (a.modTime < b.modTime)) files).1
    refine ⟨_, _, hrun, ?_, ?_, ?_, ?_⟩
    · intro a ha
      have hmem : a.1 ∈ marked := by
        have h := List.mem_map_of_mem (fun p : String × Bool => p.1) ha
        rw [removeMarked_names] at h
        exact h
      rw [← hm] at hmem
      rcases List.mem_append.1 hmem with h | h
      · unfold ageMarked at h
        obtain ⟨f, hf, hn⟩ := List.mem_map.1 h
        have hf2 := List.mem_filter.1 hf
        exact ⟨f, hf2.1, hn, Or.inl (by simpa using hf2.2)⟩
      · split at h
        · rename_i hgt
          obtain ⟨f, hf, hn⟩ := List.mem_map.1 h
          exact ⟨f, hperm.mem_iff.1 (List.mem_of_mem_take hf), hn, Or.inr ⟨hgt, hf⟩⟩
        · simp at h
    · intro e he hno
      simp only [removeMarked_entries]
      refine List.mem_filter.2 ⟨he, ?_⟩
      rw [List.all_eq_true]
      intro n hn
      have hn2 : n ∈ (removeMarked rmFails d.entries marked).1.map (·.1) := by
        rw [removeMarked_names]; exact hn
      obtain ⟨a, ha, han⟩ := List.mem_map.1 hn2
      have hne := hno a ha
      have hne2 : ¬ e.name = n := by
        intro h
        apply hne
        rw [h]
        exact han
      simp [hne2]
    · intro e he
      simp only [removeMarked_entries] at he
      exact (List.mem_filter.1 he).1
    · intro hle hyoung
      have hng : ¬ (files.length : Int) > lrs.maxFiles := by omega
      have hnil : marked = [] := by
        rw [← hm, ageMarked_nil lrs now files hyoung, if_neg hng, List.append_nil]
      subst hnil
      exact ⟨rfl, rfl⟩

theorem cleanupOldLogs_removes_only_marked_witness :
    SliceSort.Meets insertionSorter ∧
    (0 : Int) ≤ (NewLogRotationService "logs" 50 1000).maxFiles ∧
    getLogFiles sampleDir = .ok sampleFiles ∧
    (sampleFiles.length : Int) ≤ (NewLogRotationService "logs" 50 1000).maxFiles ∧
    (∀ f ∈ sampleFiles,
      timeSub 100 f.modTime ≤ (NewLogRotationService "logs" 50 1000).maxAge) ∧
    cleanupOldLogs insertionSorter (NewLogRotationService "logs" 50 1000) 100
      (fun _ => false) sampleDir = (.swept [], sampleDir) ∧
    cleanupOldLogs insertionSorter (NewLogRotationService "logs" 50 1000) 100
      (fun _ => false) ⟨some "permission denied", sampleDir.entries⟩ =
        (.readFailed "permission denied", ⟨some "permission denied", sampleDir.entries⟩) := by
  have hy : ∀ f ∈ sampleFiles,
      timeSub 100 f.modTime ≤ (NewLogRotationService "logs" 50 1000).maxAge := by decide
  have h := cleanupOldLogs_removes_only_marked insertionSorter insertionSorter_meets
    (NewLogRotationService "logs" 50 1000) 100 (fun _ => false) sampleDir (by decide)
  have h2 := cleanupOldLogs_removes_only_marked insertionSorter insertionSorter_meets
    (NewLogRotationService "logs" 50 1000) 100 (fun _ => false)
    ⟨some "permission denied", sampleDir.entries⟩ (by decide)
  obtain ⟨attempts, dirAfter, hrun, _, _, _, hnone⟩ := h.2 sampleFiles rfl
  obtain ⟨ha, hd⟩ := hnone (by decide) hy
  rw [ha, hd] at hrun
  exact ⟨insertionSorter_meets, by decide, rfl, by decide, hy, hrun,
    h2.1 "permission denied" rfl⟩

/-! ## `formatFileSize` on every 64-bit size -/

theorem formatFileSizeLoop_int64 (size : Int) (h1 : 1024 ≤ size) (h2 : size < 2 ^ 63) :
    ∃ j : Nat, j ≤ 5 ∧ formatFileSizeLoop (size / 1024) 1024 0 = ((1024 : Int) ^ (j + 1), j) := by
  obtain ⟨j, hj, hlo, _⟩ :=
    formatFileSizeLoop_spec (size / 1024).toNat (size / 1024) 1024 0 rfl (by omega)
  have hlo2 : (1024 : Int) ^ (j + 1) ≤ size := by
    have := (Int.le_ediv_iff_mul_le (by norm_num : (0 : Int) < 1024)).1 hlo
    rw [pow_succ]; exact this
  have hj5 : j ≤ 5 := by
    by_contra hcon
    have h7 : (1024 : Int) ^ (6 + 1) ≤ 1024 ^ (j + 1) :=
      pow_le_pow_right₀ (by norm_num) (by omega)
    have : (1024 : Int) ^ (6 + 1) = 2 ^ 70 := by norm_num
    have : (2 : Int) ^ 63 < 2 ^ 70 := by norm_num
    omega
  refine ⟨j, hj5, ?_⟩
  rw [hj, zero_add, pow_succ, mul_comm]

theorem formatFileSize_negative (size : Int) (h : size < 0) :
    formatFileSize size = some ("-" ++ String.mk (Nat.toDigits 10 (-size).toNat) ++ " B") := by
  have h1 : size < 1024 := by omega
  simp only [formatFileSize, if_pos h1, fmtInt]
  cases size with
  | ofNat n => exact absurd h (by simp)
  | negSucc n => rfl

theorem formatFileSize_maxInt64 : formatFileSize 9223372036854775807 = some "8.0 EB" := by
  obtain ⟨k, c, hk1, hk6, hlo, hhi, hc, hfmt⟩ :=
    formatFileSize_scaled 9223372036854775807 (by decide) (by decide)
  have hk : k = 6 := by
    interval_cases k <;> first | rfl | (norm_num at hhi)
  subst hk
  have hc2 : c = 'E' := by
    have : "KMGTPE".data.get? (6 - 1) = some 'E' := by decide
    rw [this] at hc
    exact (Option.some.inj hc).symm
  subst hc2
  rw [hfmt]
  decide

/-- C18: for every `int64` size the scaling loop of `formatFileSize` ends with an
exponent index `exp` between 0 and 5, so `"KMGTPE"[exp]` is in range, and with the
divisor `1024 ^ (exp + 1)` below `2 ^ 63`; `formatFileSize` returns a string for
every such size, and a negative size is rendered as `"<n> B"`. -/
theorem formatFileSize_total :
    (∀ size : Int, size < 2 ^ 63 → ∃ s, formatFileSize size = some s) ∧
    (∀ size : Int, 1024 ≤ size → size < 2 ^ 63 →
      ∃ (exp : Nat) (c : Char),
        formatFileSizeLoop (size / 1024) 1024 0 = ((1024 : Int) ^ (exp + 1), exp) ∧
        exp ≤ 5 ∧ "KMGTPE".data.get? exp = some c ∧ (1024 : Int) ^ (exp + 1) < 2 ^ 63) ∧
    (∀ size : Int, size < 0 →
      formatFileSize size =
        some ("-" ++ String.mk (Nat.toDigits 10 (-size).toNat) ++ " B")) ∧
    formatFileSize (2 ^ 63 - 1) = some "8.0 EB" ∧
    formatFileSize (-1) = some "-1 B" ∧
    formatFileSize (-(2 ^ 63)) = some "-9223372036854775808 B" := by
  refine ⟨formatFileSize_some, ?_, formatFileSize_negative, ?_, ?_, ?_⟩
  · intro size h1 h2
    obtain ⟨j, hj5, hj⟩ := formatFileSizeLoop_int64 size h1 h2
    have hget : ∃ c, "KMGTPE".data.get? j = some c := by
      interval_cases j <;> exact ⟨_, rfl⟩
    obtain ⟨c, hc⟩ := hget
    refine ⟨j, c, hj, hj5, hc, ?_⟩
    have h6 : (1024 : Int) ^ (j + 1) ≤ 1024 ^ 6 := pow_le_pow_right₀ (by norm_num) (by omega)
    have : (1024 : Int) ^ 6 < 2 ^ 63 := by norm_num
    omega
  · have e : (2 : Int) ^ 63 - 1 = 9223372036854775807 := by norm_num
    rw [e]
    exact formatFileSize_maxInt64
  · decide
  · decide

theorem formatFileSize_total_witness :
    ((2 : Int) ^ 63 - 1 < 2 ^ 63 ∧ ∃ s, formatFileSize (2 ^ 63 - 1) = some s) ∧
    ((1024 : Int) ≤ 2 ^ 63 - 1 ∧
      ∃ (exp : Nat) (c : Char),
        formatFileSizeLoop ((2 ^ 63 - 1) / 1024) 1024 0 = ((1024 : Int) ^ (exp + 1), exp) ∧
        exp ≤ 5 ∧ "KMGTPE".data.get? exp = some c ∧ (1024 : Int) ^ (exp + 1) < 2 ^ 63) ∧
    ((-5 : Int) < 0 ∧
      formatFileSize (-5) =
        some ("-" ++ String.mk (Nat.toDigits 10 (-(-5 : Int)).toNat) ++ " B")) :=
  ⟨⟨by decide, formatFileSize_total.1 (2 ^ 63 - 1) (by decide)⟩,
    ⟨by decide, formatFileSize_total.2.1 (2 ^ 63 - 1) (by decide) (by decide)⟩,
    ⟨by decide, formatFileSize_total.2.2.1 (-5) (by decide)⟩⟩

/-! ## What the listing leaves out -/

theorem forall₂_mem_left {α β : Type} {R : α → β → Prop} {l1 : List α} {l2 : List β}
    (h : List.Forall₂ R l1 l2) : ∀ a ∈ l1, ∃ b ∈ l2, R a b := by
  induction h with
  | nil => intro a ha; simp at ha
  | cons hab _ ih =>
    intro a ha
    rcases List.mem_cons.1 ha with h1 | h1
    · subst h1; exact ⟨_, List.mem_cons_self _ _, hab⟩
    · obtain ⟨b, hb, hr⟩ := ih a h1
      exact ⟨b, List.mem_cons_of_mem _ hb, hr⟩

theorem forall₂_mem_right {α β : Type} {R : α → β → Prop} {l1 : List α} {l2 : List β}
    (h : List.Forall₂ R l1 l2) : ∀ b ∈ l2, ∃ a ∈ l1, R a b := by
  induction h with
  | nil => intro b hb; simp at hb
  | cons hab _ ih =>
    intro b hb
    rcases List.mem_cons.1 hb with h1 | h1
    · subst h1; exact ⟨_, List.mem_cons_self _ _, hab⟩
    · obtain ⟨a, ha, hr⟩ := ih b h1
      exact ⟨a, List.mem_cons_of_mem _ ha, hr⟩

theorem logFileOf_isSome (e : DirEntry) :
    (logFileOf e).isSome = (isLogFileEntry e && !e.infoErr) := by
  unfold logFileOf DirEntry.Info
  cases isLogFileEntry e <;> cases e.infoErr <;> rfl

theorem length_filterMap_logFileOf (entries : List DirEntry) :
    (entries.filterMap logFileOf).length =
      (entries.filter (fun e => isLogFileEntry e && !e.infoErr)).length := by
  induction entries with
  | nil => rfl
  | cons e es ih =>
    have h := logFileOf_isSome e
    cases hlf : logFileOf e with
    | none =>
      rw [hlf] at h
      have h2 : (isLogFileEntry e && !e.infoErr) = false := by simpa using h.symm
      simp only [List.filterMap_cons, hlf, List.filter_cons, h2, ih]
      rfl
    | some f =>
      rw [hlf] at h
      have h2 : (isLogFileEntry e && !e.infoErr) = true := by simpa using h.symm
      simp only [List.filterMap_cons, hlf, List.filter_cons, h2, ih, List.length_cons]
      rfl

/-- C14, as stated, fails: the directory holds two matching files and reading the
metadata of one of them fails; `GetLogFilesList` returns success with the other
file only. -/
theorem GetLogFilesList_omits_unreadable :
    GetLogFilesList insertionSorter sampleVanished =
        .ok [⟨"pawtroli_2024-01-01.log", 10, 0, "10 B"⟩] ∧
      (sampleVanished.entries.filter isLogFileEntry).length = 2 := by
  constructor <;> decide

/-- C14, amended: for every directory state (sizes being `int64` values),
`GetLogFilesList` returns the error of the directory read when that fails, and
otherwise success with exactly one descriptor for every non-directory entry that
passes the name filter and whose metadata could be read; an entry whose metadata
cannot be read is left out without an error. -/
theorem GetLogFilesList_all_readable (srt : SliceSort) (hs : srt.Meets) (d : LogDir)
    (hsize : ∀ e ∈ d.entries, e.size < 2 ^ 63) :
    (∀ err, d.readErr = some err → GetLogFilesList srt d = .error err) ∧
    (d.readErr = none →
      ∃ result, GetLogFilesList srt d = .ok result ∧
        (∀ e ∈ d.entries, isLogFileEntry e = true → e.infoErr = false →
          ∃ v ∈ result, v.name = e.name ∧ v.size = e.size ∧ v.modTime = e.modTime) ∧
        (∀ v ∈ result, ∃ e ∈ d.entries, isLogFileEntry e = true ∧ e.infoErr = false ∧
          v.name = e.name ∧ v.size = e.size ∧ v.modTime = e.modTime) ∧
        result.length =
          (d.entries.filter (fun e => isLogFileEntry e && !e.infoErr)).length) := by
  constructor
  · intro err herr
    simp [GetLogFilesList, getLogFiles, osReadDir, herr]
  · intro hread
    have hfiles : getLogFiles d = .ok (d.entries.filterMap logFileOf) :=
      (getLogFiles_ok_iff d _).2 ⟨hread, rfl⟩
    have hsz : ∀ f ∈ d.entries.filterMap logFileOf, f.size < 2 ^ 63 := by
      intro f hf
      obtain ⟨e, he, hlf⟩ := List.mem_filterMap.1 hf
      have h := (logFileOf_some_iff e f).1 hlf
      rw [h.2.2.2.2]
      exact hsize e he
    obtain ⟨views, hviews, hrel⟩ := mapM_viewOf _ hsz
    have hperm := (hs LogFileView (fun a b => decide (a.modTime > b.modTime)) views).1
    refine ⟨srt LogFileView (fun a b => decide (a.modTime > b.modTime)) views, ?_, ?_, ?_, ?_⟩
    · simp only [GetLogFilesList, hfiles, hviews]
    · intro e he hlog hinfo
      have hlf : logFileOf e = some ⟨e.name, e.size, e.modTime⟩ := by
        rw [logFileOf_some_iff]
        unfold isLogFileEntry at hlog
        simp only [Bool.and_eq_true, Bool.not_eq_true'] at hlog
        exact ⟨hlog.1.1, hlog.1.2, hlog.2, hinfo, rfl⟩
      have hf : (⟨e.name, e.size, e.modTime⟩ : FileInfo) ∈ d.entries.filterMap logFileOf :=
        List.mem_filterMap.2 ⟨e, he, hlf⟩
      obtain ⟨v, hv, hr⟩ := forall₂_mem_left hrel _ hf
      have h := (viewOf_some_iff _ v).1 hr
      exact ⟨v, hperm.mem_iff.2 hv, h.1, h.2.1, h.2.2.1⟩
    · intro v hv
      obtain ⟨f, hf, hr⟩ := forall₂_mem_right hrel v (hperm.mem_iff.1 hv)
      have h := (viewOf_some_iff f v).1 hr
      obtain ⟨e, he, hlf⟩ := List.mem_filterMap.1 hf
      have h2 := (logFileOf_some_iff e f).1 hlf
      have hlog : isLogFileEntry e = true := by
        unfold isLogFileEntry
        simp [h2.1, h2.2.1, h2.2.2.1]
      have hfe := h2.2.2.2.2
      subst hfe
      exact ⟨e, he, hlog, h2.2.2.2.1, h.1, h.2.1, h.2.2.1⟩
    · rw [hperm.length_eq, ← hrel.length_eq, length_filterMap_logFileOf]

theorem GetLogFilesList_all_readable_witness :
    SliceSort.Meets insertionSorter ∧
    (∀ e ∈ sampleVanished.entries, e.size < 2 ^ 63) ∧
    sampleVanished.readErr = none ∧
    ∃ result, GetLogFilesList insertionSorter sampleVanished = .ok result ∧
      (∀ e ∈ sampleVanished.entries, isLogFileEntry e = true → e.infoErr = false →
        ∃ v ∈ result, v.name = e.name ∧ v.size = e.size ∧ v.modTime = e.modTime) ∧
      (∀ v ∈ result, ∃ e ∈ sampleVanished.entries, isLogFileEntry e = true ∧
        e.infoErr = false ∧ v.name = e.name ∧ v.size = e.size ∧ v.modTime = e.modTime) ∧
      result.length =
        (sampleVanished.entries.filter (fun e => isLogFileEntry e && !e.infoErr)).length :=
  ⟨insertionSorter_meets, by decide, rfl,
    (GetLogFilesList_all_readable insertionSorter insertionSorter_meets sampleVanished
      (by decide)).2 rfl⟩

/-! ## `RotateLogFile` without a handle, and the rounds of the background loop -/

/-- C16, which the code does not meet: the claim has `RotateLogFile` create the
handle when none exists. In the code, with `logFile` nil the call `logFile.Name()`
panics whatever the filesystem would answer, and nothing is opened; `logFile` is
nil after a rotation whose `os.OpenFile` failed. -/
theorem RotateLogFile_nil_handle_panics :
    (∀ (env : LogEnv) (today todayInit : Date) (loggers : Option String),
      RotateLogFile env today todayInit ⟨none, loggers⟩ = (.panicked, ⟨none, loggers⟩, [])) ∧
    (RotateLogFile ⟨none, some "no space left on device"⟩ ⟨2024, 1, 2⟩ ⟨2024, 1, 2⟩
      sampleLogger).2.1 = ⟨none, some "logs/pawtroli_2024-01-01.log"⟩ ∧
    RotateLogFile ⟨none, none⟩ ⟨2024, 1, 2⟩ ⟨2024, 1, 2⟩
        ⟨none, some "logs/pawtroli_2024-01-01.log"⟩ =
      (.panicked, ⟨none, some "logs/pawtroli_2024-01-01.log"⟩, []) := by
  refine ⟨fun env today todayInit loggers => rfl, by decide, by decide⟩

theorem RotateLogFile_not_panicked (env : LogEnv) (today todayInit : Date) (s : LoggerState)
    (f : OsFile) (hf : s.logFile = some f) :
    (RotateLogFile env today todayInit s).1 ≠ .panicked := by
  by_cases hname : filepathBase f.name = logFileNameOf today
  · rw [RotateLogFile_noop env today todayInit s f hf hname]
    intro h; cases h
  · rw [RotateLogFile_rotates env today todayInit s f hf hname]
    unfold InitLogger
    cases env.mkdirErr <;> cases env.openErr <;> (intro h; cases h)

theorem cleanupOldLogs_not_panicked (srt : SliceSort) (hs : srt.Meets)
    (lrs : LogRotationService) (now : Int) (rmFails : String → Bool) (d : LogDir)
    (hmax : 0 ≤ lrs.maxFiles) :
    (cleanupOldLogs srt lrs now rmFails d).1 ≠ .panicked := by
  unfold cleanupOldLogs
  cases hg : getLogFiles d with
  | error err => intro h; cases h
  | ok files =>
    simp only [filesToDelete_eq srt hs lrs now files hmax]
    intro h; cases h

/-- The part of the per-tick isolation that holds: with a handle in place and
`maxFiles ≥ 0`, a round runs `RotateLogFile`, then `cleanupOldLogs` whatever the
rotation returned, and completes. -/
theorem runTick_completes (srt : SliceSort) (hs : srt.Meets) (lrs : LogRotationService)
    (i : TickInput) (s : LoggerState) (f : OsFile) (hf : s.logFile = some f)
    (hmax : 0 ≤ lrs.maxFiles) :
    runTick srt lrs i s =
      (.completed (RotateLogFile i.env i.today i.todayInit s).1
          (cleanupOldLogs srt lrs i.now i.rmFails i.dir).1,
        (RotateLogFile i.env i.today i.todayInit s).2.1) := by
  have h1 := RotateLogFile_not_panicked i.env i.today i.todayInit s f hf
  have h2 := cleanupOldLogs_not_panicked srt hs lrs i.now i.rmFails i.dir hmax
  unfold runTick
  generalize RotateLogFile i.env i.today i.todayInit s = r at h1
  generalize cleanupOldLogs srt lrs i.now i.rmFails i.dir = c at h2
  obtain ⟨r1, r2, r3⟩ := r
  obtain ⟨c1, c2⟩ := c
  cases r1 <;> cases c1 <;> simp_all

/-- C12, which the code does not meet: the claim has every round complete
without a panic. In the code, a round on a new day in which `os.OpenFile` fails
completes (the error is logged and the sweep runs) but leaves `logFile` nil, and
the next round panics in `RotateLogFile`, before any sweep. -/
theorem runTicks_panics_after_failed_open :
    runTicks insertionSorter (NewLogRotationService "logs" 50 1000)
        [sampleTickOpenFails, sampleTickFine] sampleLogger =
      ([.completed (.error "failed to open log file: no space left on device") (.swept []),
          .panicked],
        ⟨none, some "logs/pawtroli_2024-01-01.log"⟩) := by
  decide

/-! ## The scheduler -/

theorem Scheduler.step_rotationTicker (s : Scheduler) (b : BgStep) :
    (s.step b).rotationTicker = s.rotationTicker := by
  cases b with
  | fire i =>
    simp only [Scheduler.step]
    split
    · split <;> rfl
    · rfl
  | tick g =>
    simp only [Scheduler.step]
    split
    · split
      · split <;> rfl
      · rfl
    · rfl
  | finishStop =>
    simp only [Scheduler.step]
    split <;> rfl

theorem Scheduler.step_tickers_length (s : Scheduler) (b : BgStep) :
    (s.step b).tickers.length = s.tickers.length := by
  cases b with
  | fire i =>
    simp only [Scheduler.step]
    split
    · split
      · rfl
      · simp
    · rfl
  | tick g =>
    simp only [Scheduler.step]
    split
    · split
      · split
        · simp
        · rfl
      · rfl
    · rfl
  | finishStop =>
    simp only [Scheduler.step]
    split
    · rfl
    · simp only
      split
      · split
        · simp
        · rfl
      · rfl

theorem Scheduler.step_selecting_length (s : Scheduler) (b : BgStep) :
    (s.step b).selecting.length = s.selecting.length := by
  cases b with
  | fire i =>
    simp only [Scheduler.step]
    split
    · split <;> rfl
    · rfl
  | tick g =>
    simp only [Scheduler.step]
    split
    · split
      · split
        · simp
        · rfl
      · rfl
    · rfl
  | finishStop =>
    simp only [Scheduler.step]
    split <;> rfl

/-- With no loop in `select`, a background step runs no rotation and no sweep. -/
theorem Scheduler.step_quiet (s : Scheduler) (b : BgStep) (hq : s.selecting = []) :
    (s.step b).selecting = [] ∧ (s.step b).rotations = s.rotations ∧
      (s.step b).sweeps = s.sweeps := by
  cases b with
  | fire i =>
    simp only [Scheduler.step]
    split
    · split
      · exact ⟨hq, rfl, rfl⟩
      · exact ⟨hq, rfl, rfl⟩
    · exact ⟨hq, rfl, rfl⟩
  | tick g =>
    simp [Scheduler.step, hq]
  | finishStop =>
    simp only [Scheduler.step]
    split
    · exact ⟨hq, rfl, rfl⟩
    · exact ⟨hq, rfl, rfl⟩

theorem Scheduler.run_quiet (steps : List BgStep) :
    ∀ s : Scheduler, s.selecting = [] →
      (s.run steps).selecting = [] ∧ (s.run steps).rotations = s.rotations ∧
        (s.run steps).sweeps = s.sweeps := by
  induction steps with
  | nil => intro s hq; exact ⟨hq, rfl, rfl⟩
  | cons b bs ih =>
    intro s hq
    obtain ⟨h1, h2, h3⟩ := Scheduler.step_quiet s b hq
    obtain ⟨k1, k2, k3⟩ := ih (s.step b) h1
    simp only [Scheduler.run, List.foldl_cons] at k1 k2 k3 ⊢
    exact ⟨k1, k2.trans h2, k3.trans h3⟩

theorem Scheduler.run_shape (steps : List BgStep) :
    ∀ s : Scheduler,
      (s.run steps).rotationTicker = s.rotationTicker ∧
        (s.run steps).tickers.length = s.tickers.length ∧
        (s.run steps).selecting.length = s.selecting.length := by
  induction steps with
  | nil => intro s; exact ⟨rfl, rfl, rfl⟩
  | cons b bs ih =>
    intro s
    obtain ⟨k1, k2, k3⟩ := ih (s.step b)
    simp only [Scheduler.run, List.foldl_cons] at k1 k2 k3 ⊢
    exact ⟨k1.trans (Scheduler.step_rotationTicker s b),
      k2.trans (Scheduler.step_tickers_length s b),
      k3.trans (Scheduler.step_selecting_length s b)⟩

/-- C11, as stated, fails: a second `Start` leaves two background loops and a
replaced ticker, and a second `Stop`, after the single loop has returned, finds
no receiver on `stopChan` and blocks. -/
theorem Start_Stop_not_idempotent :
    Scheduler.fresh.Start.selecting = [0] ∧
    Scheduler.fresh.Start.rotationTicker = some 0 ∧
    Scheduler.fresh.Start.Start.selecting = [0, 1] ∧
    Scheduler.fresh.Start.Start.rotationTicker = some 1 ∧
    Scheduler.fresh.Start.Stop 0 =
      .returned ⟨[⟨false, false⟩], some 0, [], 1, 0, 0, 1⟩ ∧
    (∀ pick : Nat,
      Scheduler.Stop pick
        ((⟨[⟨false, false⟩], some 0, [], 1, 0, 0, 1⟩ : Scheduler).run [.finishStop]) =
      .blocked) := by
  refine ⟨by decide, by decide, by decide, by decide, by decide, ?_⟩
  intro pick
  rfl

/-- C11, amended: calling `Stop` on a service that was never started returns
without blocking and leaves the state as it was, Stopped; calling `Start` is not
a no-op on a Running service: it stores a new ticker and adds a background loop
to those already there. -/
theorem Stop_never_started_returns (s : Scheduler) (pick : Nat)
    (hnever : s.rotationTicker = none) :
    Scheduler.Stop pick s = .returned s ∧
    (s.Start.selecting.length = s.selecting.length + 1 ∧
      s.Start.tickers.length = s.tickers.length + 1 ∧
      s.Start.rotationTicker = some s.tickers.length) ∧
    (s.Start.Start.selecting.length = s.selecting.length + 2 ∧
      s.Start.Start.tickers.length = s.tickers.length + 2 ∧
      s.Start.Start.rotationTicker = some (s.tickers.length + 1)) := by
  refine ⟨?_, ?_, ?_⟩
  · simp only [Scheduler.Stop, hnever]
  · simp [Scheduler.Start]
  · simp [Scheduler.Start]

theorem Stop_never_started_returns_witness :
    Scheduler.fresh.rotationTicker = none ∧
    Scheduler.Stop 0 Scheduler.fresh = .returned Scheduler.fresh ∧
    (Scheduler.fresh.Start.selecting.length = Scheduler.fresh.selecting.length + 1 ∧
      Scheduler.fresh.Start.tickers.length = Scheduler.fresh.tickers.length + 1 ∧
      Scheduler.fresh.Start.rotationTicker = some Scheduler.fresh.tickers.length) ∧
    (Scheduler.fresh.Start.Start.selecting.length = Scheduler.fresh.selecting.length + 2 ∧
      Scheduler.fresh.Start.Start.tickers.length = Scheduler.fresh.tickers.length + 2 ∧
      Scheduler.fresh.Start.Start.rotationTicker =
        some (Scheduler.fresh.tickers.length + 1)) :=
  ⟨rfl, Stop_never_started_returns Scheduler.fresh 0 rfl⟩

/-- C15, amended: for every execution in which `Start`, called with no loop in `select`,
is followed by `Stop`, whatever the tickers and the loop did in between: `Stop`
returns, the loop has then left its `select`, its next step cancels the ticker
that `Start` created, and no later step, timer firings included, runs
`RotateLogFile` or `cleanupOldLogs`. -/
theorem no_tick_after_Stop (s0 : Scheduler) (hquiet : s0.selecting = [])
    (before : List BgStep) (pick : Nat) :
    ∃ s1, Scheduler.Stop pick (s0.Start.run before) = .returned s1 ∧
      s1.selecting = [] ∧
      (∃ t, (s1.step .finishStop).tickers.get? s0.tickers.length = some t ∧
        t.stopped = true) ∧
      ∀ after : List BgStep,
        (s1.run after).selecting = [] ∧ (s1.run after).rotations = s1.rotations ∧
          (s1.run after).sweeps = s1.sweeps := by
  obtain ⟨hrt, htl, hsl⟩ := Scheduler.run_shape before s0.Start
  have hrt2 : (s0.Start.run before).rotationTicker = some s0.tickers.length := by
    rw [hrt]; rfl
  have htl2 : (s0.Start.run before).tickers.length = s0.tickers.length + 1 := by
    rw [htl]; simp [Scheduler.Start]
  have hsl2 : (s0.Start.run before).selecting.length = 1 := by
    rw [hsl]; simp [Scheduler.Start, hquiet]
  obtain ⟨x, hx⟩ : ∃ x, (s0.Start.run before).selecting = [x] := by
    cases hsel : (s0.Start.run before).selecting with
    | nil => rw [hsel] at hsl2; simp at hsl2
    | cons y ys =>
      rw [hsel] at hsl2
      cases ys with
      | nil => exact ⟨y, rfl⟩
      | cons z zs => simp at hsl2
  have hne : (s0.Start.run before).selecting ≠ [] := by rw [hx]; simp
  obtain ⟨t0, ht0⟩ : ∃ t0, (s0.Start.run before).tickers.get? s0.tickers.length = some t0 := by
    have hlt : s0.tickers.length < (s0.Start.run before).tickers.length := by omega
    exact ⟨_, List.get?_eq_get hlt⟩
  refine ⟨{ s0.Start.run before with
      selecting := (s0.Start.run before).selecting.eraseIdx
        (pick % (s0.Start.run before).selecting.length)
      stopping := (s0.Start.run before).stopping + 1 }, ?_, ?_, ?_, ?_⟩
  · simp only [Scheduler.Stop, hrt2, if_neg hne]
  · simp [hx, Nat.mod_one]
  · refine ⟨{ t0 with stopped := true }, ?_, rfl⟩
    have ht1 : (s0.Start.run before).tickers[s0.tickers.length]? = some t0 := by
      simpa using ht0
    have hlt : s0.tickers.length < (s0.Start.run before).tickers.length := by omega
    simp [Scheduler.step, hrt2, ht1, List.getElem?_set_self, hlt]
  · intro after
    exact Scheduler.run_quiet after _ (by simp [hx, Nat.mod_one])

theorem no_tick_after_Stop_witness :
    Scheduler.fresh.selecting = [] ∧
    ∃ s1, Scheduler.Stop 0 (Scheduler.fresh.Start.run [.fire 0, .tick 0, .fire 0]) =
        .returned s1 ∧
      s1.selecting = [] ∧
      (∃ t, (s1.step .finishStop).tickers.get? Scheduler.fresh.tickers.length = some t ∧
        t.stopped = true) ∧
      ∀ after : List BgStep,
        (s1.run after).selecting = [] ∧ (s1.run after).rotations = s1.rotations ∧
          (s1.run after).sweeps = s1.sweeps :=
  ⟨rfl, no_tick_after_Stop Scheduler.fresh rfl [.fire 0, .tick 0, .fire 0] 0⟩

/-! ## The count-based eviction under `sort.Slice` -/

/-- C3, as stated, fails: thirteen candidates younger than `maxAge`, listed in the
order of `os.ReadDir`, of which the files of 4 and 7 January share the oldest
modification time, and `maxFiles = 12`. The name-ascending tie-break selects the
file of 4 January; `sort.Slice` moves its pivot, the file of 7 January, to the
front, and `cleanupOldLogs` deletes that one. -/
theorem count_eviction_tie_not_by_name :
    sortedByName sampleThirteen.entries = true ∧
    getLogFiles sampleThirteen = .ok sampleThirteenFiles ∧
    (∀ f ∈ sampleThirteenFiles,
      timeSub 100 f.modTime ≤ (NewLogRotationService "logs" 12 1000).maxAge) ∧
    (0 : Int) ≤ (NewLogRotationService "logs" 12 1000).maxFiles ∧
    (NewLogRotationService "logs" 12 1000).maxFiles < sampleThirteenFiles.length ∧
    (sortSliceFunc (fun a b => decide (a.modTime < b.modTime)) sampleThirteenFiles).map
        (fun sorted => sorted.map (fun f => (f.name, f.modTime))) =
      some [("pawtroli_2024-01-07.log", 0), ("pawtroli_2024-01-04.log", 0),
        ("pawtroli_2024-01-02.log", 10), ("pawtroli_2024-01-03.log", 10),
        ("pawtroli_2024-01-05.log", 10), ("pawtroli_2024-01-06.log", 10),
        ("pawtroli_2024-01-01.log", 10), ("pawtroli_2024-01-08.log", 10),
        ("pawtroli_2024-01-09.log", 10), ("pawtroli_2024-01-10.log", 10),
        ("pawtroli_2024-01-11.log", 10), ("pawtroli_2024-01-12.log", 10),
        ("pawtroli_2024-01-13.log", 10)] ∧
    filesToDelete pdqSorter (NewLogRotationService "logs" 12 1000) 100 sampleThirteenFiles =
      some ["pawtroli_2024-01-07.log"] ∧
    specEvicted (NewLogRotationService "logs" 12 1000) sampleThirteenFiles =
      ["pawtroli_2024-01-04.log"] ∧
    (cleanupOldLogs pdqSorter (NewLogRotationService "logs" 12 1000) 100 (fun _ => false)
        sampleThirteen).1 = .swept [("pawtroli_2024-01-07.log", true)] := by
  refine ⟨by decide, rfl, by decide, by decide, by decide, by decide, by decide, by decide,
    by decide⟩

/-- On a short slice `sort.Slice` is the insertion sort: the two routines agree on
the five sample candidates, for both less functions of the service. -/
theorem pdqSorter_short_slice :
    pdqSorter FileInfo (fun a b => decide (a.modTime < b.modTime)) sampleFive =
        insertionSorter FileInfo (fun a b => decide (a.modTime < b.modTime)) sampleFive ∧
      pdqSorter FileInfo (fun a b => decide (a.modTime > b.modTime)) sampleFive =
        insertionSorter FileInfo (fun a b => decide (a.modTime > b.modTime)) sampleFive := by
  constructor <;> decide

/-! ## The printed value beyond 53 bits -/

/-- C5, as stated, fails: the size `5 * 2 ^ 58 + 1` lies above `1.25 * 1024 ^ 6`,
so `n / 1024 ^ 6` printed with one decimal place is `1.3`; `float64(n)` drops the
last bit, the quotient is `1.25` exactly, and `formatFileSize` prints `1.2 EB`. -/
theorem formatFileSize_rounds_float64 :
    formatFileSize 1441151880758558721 = some "1.2 EB" ∧
    (1441151880758558721 : Int) = 5 * 2 ^ 58 + 1 ∧
    (1024 : Int) ^ 6 ≤ 1441151880758558721 ∧ (1441151880758558721 : Int) < 1024 ^ 7 ∧
    (25 : Int) * 1024 ^ 6 < 20 * 1441151880758558721 ∧
    fmtFloat1 1441151880758558721 (1024 ^ 6) = "1.3" ∧
    float64OfNat 1441151880758558721 = 1441151880758558720 := by
  refine ⟨?_, by norm_num, by norm_num, by norm_num, by norm_num, by decide, by decide⟩
  obtain ⟨k, c, hk1, hk6, hlo, hhi, hc, hfmt⟩ :=
    formatFileSize_scaled 1441151880758558721 (by decide) (by decide)
  have hk : k = 6 := by
    interval_cases k <;> first | rfl | (norm_num at hhi)
  subst hk
  have hc2 : c = 'E' := by
    have : "KMGTPE".data.get? (6 - 1) = some 'E' := by decide
    rw [this] at hc
    exact (Option.some.inj hc).symm
  subst hc2
  rw [hfmt]
  decide

/-! ## Ticks after `Stop` -/

/-- C15, as stated, fails. After `Start` and `Stop`, at the return of `Stop` the
ticker is not cancelled yet: the loop cancels it on its next step. After `Start`,
`Start` and `Stop`, one loop is still in `select` when `Stop` has returned; the
first ticker is never cancelled, and when it fires that loop runs `RotateLogFile`
and `cleanupOldLogs`. -/
theorem tick_after_Stop_second_loop :
    Scheduler.fresh.Start.Stop 0 = .returned ⟨[⟨false, false⟩], some 0, [], 1, 0, 0, 1⟩ ∧
    Scheduler.fresh.Start.Start.Stop 1 =
      .returned ⟨[⟨false, false⟩, ⟨false, false⟩], some 1, [0], 1, 0, 0, 2⟩ ∧
    (⟨[⟨false, false⟩, ⟨false, false⟩], some 1, [0], 1, 0, 0, 2⟩ : Scheduler).run
        [.finishStop, .fire 0, .tick 0] =
      ⟨[⟨false, false⟩, ⟨true, false⟩], some 1, [1], 0, 1, 1, 3⟩ := by
  refine ⟨by decide, by decide, by decide⟩

end Pawtroli
